import Mathlib

/-!
Verification development for the ChromaBags color-scheme engine
(`src/modules/modcomcolo.py`).

The Python code is embedded shallowly over exact rational arithmetic:

* Python floats become `ℚ`;
* Python's truncating `int()` becomes `pyInt`;
* Python's `x % 1.0` on floats becomes `Int.fract`;
* Python's `//` and `%` on integers become Euclidean division and
  modulus (they agree with Python's floor semantics at the positive
  divisors used by the code);
* Python strings become lists of Unicode code points (`List ℕ`);
  for example `35 = '#'`, `48`–`57` = `'0'`–`'9'`, `65`–`70` = `'A'`–`'F'`,
  `97`–`102` = `'a'`–`'f'`, `43 = '+'`, `45 = '-'`;
* errors raised by the code become `Except ColorError`, with
  `ColorError.invalidFormat` for the malformed-hex `ValueError` and
  `ColorError.unknownScheme` for the unknown-scheme `ValueError`.

The rational embedding is the exact-real-arithmetic semantics of the
code; CPython's binary64 rounding can additionally shift a truncated
channel by one unit (the approximate-round-trip tolerance the spec
itself documents for the float conversions).

Two pieces of CPython string behavior reach outside ASCII and are
handled explicitly:

* `int(s, 16)` first transforms non-ASCII Unicode decimal digits to
  ASCII digits and non-ASCII Unicode whitespace to spaces (so e.g.
  `int('٥٥', 16) = 85`).  `pyIntHex2` embeds the ASCII fragment of
  `int(·, 16)`, which is exact on ASCII inputs (checked exhaustively
  against CPython on all two-character ASCII strings); the one theorem
  quantifying over arbitrary hex-string inputs (C5) is accordingly
  scoped to ASCII strings.
* `str.upper()` applies the full Unicode uppercase mapping per
  character, and non-ASCII code points can uppercase into ASCII
  (dotless `'ı'`, U+0131, uppercases to `'I'`).  The per-character
  mapping is therefore kept abstract: `generar_esquema` takes it as a
  parameter `up`, and the dispatch theorem (C6) assumes only
  `upperASCII up` — the mapping's ASCII behavior, true of CPython —
  so its conclusions hold for the real `str.upper()`.
-/

/-- Python strings, modelled as lists of Unicode code points. -/
abbrev PyStr := List ℕ

/-- Python's `int(x)` applied to a float: truncation toward zero. -/
def pyInt (x : ℚ) : ℤ := if 0 ≤ x then ⌊x⌋ else ⌈x⌉

/-- Python's `range(a, b)` as a list of integers (empty when `b ≤ a`). -/
def pyRange (a b : ℤ) : List ℤ :=
  (List.range (b - a).toNat).map (fun k : ℕ => a + (k : ℤ))

/-- `colorsys.rgb_to_hsv`, translated over `ℚ`. -/
def rgb_to_hsv (r g b : ℚ) : ℚ × ℚ × ℚ :=
  let maxc := max r (max g b)
  let minc := min r (min g b)
  let rangec := maxc - minc
  let v := maxc
  if minc = maxc then (0, 0, v)
  else
    let s := rangec / maxc
    let rc := (maxc - r) / rangec
    let gc := (maxc - g) / rangec
    let bc := (maxc - b) / rangec
    let h := if r = maxc then bc - gc
             else if g = maxc then 2 + rc - bc
             else 4 + gc - rc
    (Int.fract (h / 6), s, v)

/-- `colorsys.hsv_to_rgb`, translated over `ℚ`.  After `i = i % 6` the
value of `i` lies in `0..5`, so the final catch-all arm is `i = 5`
(in Python any other value would fall off the end of the function,
which cannot happen). -/
def hsv_to_rgb (h s v : ℚ) : ℚ × ℚ × ℚ :=
  if s = 0 then (v, v, v)
  else
    let i0 := pyInt (h * 6)
    let f := h * 6 - (i0 : ℚ)
    let p := v * (1 - s)
    let q := v * (1 - s * f)
    let t := v * (1 - s * (1 - f))
    let i := i0 % 6
    if i = 0 then (v, t, p)
    else if i = 1 then (q, v, p)
    else if i = 2 then (p, v, t)
    else if i = 3 then (p, q, v)
    else if i = 4 then (t, p, v)
    else (v, p, q)

/-- `colorsys.rgb_to_hls`, translated over `ℚ`. -/
def rgb_to_hls (r g b : ℚ) : ℚ × ℚ × ℚ :=
  let maxc := max r (max g b)
  let minc := min r (min g b)
  let sumc := maxc + minc
  let rangec := maxc - minc
  let l := sumc / 2
  if minc = maxc then (0, l, 0)
  else
    let s := if l ≤ 1/2 then rangec / sumc else rangec / (2 - sumc)
    let rc := (maxc - r) / rangec
    let gc := (maxc - g) / rangec
    let bc := (maxc - b) / rangec
    let h := if r = maxc then bc - gc
             else if g = maxc then 2 + rc - bc
             else 4 + gc - rc
    (Int.fract (h / 6), l, s)

/-- `colorsys._v`, the triangular-wave helper of `hls_to_rgb`. -/
def hls_v (m1 m2 hue : ℚ) : ℚ :=
  let hue := Int.fract hue
  if hue < 1/6 then m1 + (m2 - m1) * hue * 6
  else if hue < 1/2 then m2
  else if hue < 2/3 then m1 + (m2 - m1) * (2/3 - hue) * 6
  else m1

/-- `colorsys.hls_to_rgb`, translated over `ℚ`. -/
def hls_to_rgb (h l s : ℚ) : ℚ × ℚ × ℚ :=
  if s = 0 then (l, l, l)
  else
    let m2 := if l ≤ 1/2 then l * (1 + s) else l + s - l * s
    let m1 := 2 * l - m2
    (hls_v m1 m2 (h + 1/3), hls_v m1 m2 h, hls_v m1 m2 (h - 1/3))

/-- The `ColorRGB` value class.  Channels are stored as integers;
they are clamped into `[0, 255]` by `mkColorRGB`, which models the
`__init__` constructor. -/
structure ColorRGB where
  r : ℤ
  g : ℤ
  b : ℤ
deriving DecidableEq, Repr

/-- `ColorRGB.__init__`: every channel is clamped into `[0, 255]`
with `max(0, min(255, x))`. -/
def mkColorRGB (r g b : ℤ) : ColorRGB :=
  ⟨max 0 (min 255 r), max 0 (min 255 g), max 0 (min 255 b)⟩

/-- Error taxonomy of the color engine (§7 of the spec): the code
raises `ValueError` in both cases, with distinct messages. -/
inductive ColorError where
  | invalidFormat
  | unknownScheme
deriving DecidableEq, Repr

/-- The value of a hexadecimal digit character, if the code point is
one of `0-9`, `a-f`, `A-F`. -/
def hexDigitVal? (c : ℕ) : Option ℕ :=
  if 48 ≤ c ∧ c ≤ 57 then some (c - 48)
  else if 97 ≤ c ∧ c ≤ 102 then some (c - 87)
  else if 65 ≤ c ∧ c ≤ 70 then some (c - 55)
  else none

/-- The ASCII whitespace accepted (and stripped) by Python's `int`:
after CPython's transform of non-ASCII digits and whitespace, the
byte-level parser strips exactly these six ASCII characters (code
points 28–31 are *not* stripped: `int('\x1c5', 16)` raises). -/
def isPySpace (c : ℕ) : Bool :=
  c == 32 || c == 9 || c == 10 || c == 11 || c == 12 || c == 13

/-- CPython's `int(s, 16)` restricted to two-character ASCII strings,
as used on the slices `hex_color[0:2]`, `[2:4]`, `[4:6]`: two hex
digits; or a single hex digit preceded by `'+'`, `'-'` or whitespace,
or followed by whitespace.  Everything else raises `ValueError`.
This is exact on ASCII pairs (verified exhaustively against CPython);
CPython additionally accepts non-ASCII Unicode decimal digits and
Unicode whitespace, which it transforms to ASCII before parsing —
those inputs lie outside this embedding, so theorems quantifying over
arbitrary strings carry an ASCII hypothesis. -/
def pyIntHex2 (c1 c2 : ℕ) : Option ℤ :=
  match hexDigitVal? c1, hexDigitVal? c2 with
  | some v1, some v2 => some (16 * (v1 : ℤ) + (v2 : ℤ))
  | none, some v2 =>
    if c1 == 43 || isPySpace c1 then some (v2 : ℤ)
    else if c1 == 45 then some (-(v2 : ℤ))
    else none
  | some v1, none => if isPySpace c2 then some (v1 : ℤ) else none
  | none, none => none

/-- `ColorRGB.from_hex`: strip every leading `'#'` (Python's
`lstrip('#')`), require exactly six remaining characters, and parse
the three two-character slices with `int(·, 16)`. -/
def ColorRGB.from_hex (s : PyStr) : Except ColorError ColorRGB :=
  match s.dropWhile (fun c => c == 35) with
  | [a1, a2, b1, b2, c1, c2] =>
    match pyIntHex2 a1 a2, pyIntHex2 b1 b2, pyIntHex2 c1 c2 with
    | some r, some g, some b => .ok (mkColorRGB r g b)
    | _, _, _ => .error .invalidFormat
  | _ => .error .invalidFormat

/-- Code point of the uppercase hexadecimal digit of value `v < 16`. -/
def upperHexDigit (v : ℕ) : ℕ := if v < 10 then 48 + v else 55 + v

/-- The two-digit uppercase rendering of a channel in `[0, 255]`,
modelling `f"{n:02x}"` followed by `.upper()`. -/
def hexPair (n : ℤ) : PyStr :=
  [upperHexDigit (n.toNat / 16 % 16), upperHexDigit (n.toNat % 16)]

/-- `ColorRGB.to_hex`: `f"#{r:02x}{g:02x}{b:02x}".upper()`.  Channels
are clamped to `[0, 255]` at construction, so each renders as exactly
two digits; `.upper()` leaves `'#'` unchanged. -/
def ColorRGB.to_hex (c : ColorRGB) : PyStr :=
  35 :: (hexPair c.r ++ hexPair c.g ++ hexPair c.b)

/-- `ColorRGB.to_hsv`: normalize the channels to `[0, 1]` and convert. -/
def ColorRGB.to_hsv (c : ColorRGB) : ℚ × ℚ × ℚ :=
  rgb_to_hsv ((c.r : ℚ) / 255) ((c.g : ℚ) / 255) ((c.b : ℚ) / 255)

/-- `ColorRGB.from_hsv`: convert and denormalize with the truncating
`int(x * 255)`. -/
def ColorRGB.from_hsv (h s v : ℚ) : ColorRGB :=
  let x := hsv_to_rgb h s v
  mkColorRGB (pyInt (x.1 * 255)) (pyInt (x.2.1 * 255)) (pyInt (x.2.2 * 255))

/-- `ColorRGB.to_hls`: normalize the channels to `[0, 1]` and convert. -/
def ColorRGB.to_hls (c : ColorRGB) : ℚ × ℚ × ℚ :=
  rgb_to_hls ((c.r : ℚ) / 255) ((c.g : ℚ) / 255) ((c.b : ℚ) / 255)

/-- `ColorRGB.from_hls`: convert and denormalize with the truncating
`int(x * 255)`. -/
def ColorRGB.from_hls (h l s : ℚ) : ColorRGB :=
  let x := hls_to_rgb h l s
  mkColorRGB (pyInt (x.1 * 255)) (pyInt (x.2.1 * 255)) (pyInt (x.2.2 * 255))

/-- `CombinacionColoresManager.generar_complementario`.  The manager
methods never touch `self`, so they are modelled as plain functions. -/
def generar_complementario (hex_base : PyStr) : Except ColorError (List PyStr) :=
  match ColorRGB.from_hex hex_base with
  | .error e => .error e
  | .ok color_base =>
    let hsv := color_base.to_hsv
    let h_complementario := Int.fract (hsv.1 + 1/2)
    .ok [hex_base, (ColorRGB.from_hsv h_complementario hsv.2.1 hsv.2.2).to_hex]

/-- The body of the `generar_analogo` loop at index `i ≥ 1`: odd `i`
goes `angulo * ((i + 1) // 2)` to the right, even `i` goes
`angulo * (i // 2)` to the left, with `angulo = 30 / 360`. -/
def analogoColor (h s v : ℚ) (i : ℤ) : PyStr :=
  let angulo : ℚ := 30 / 360
  let h_nuevo :=
    if i % 2 = 1 then Int.fract (h + angulo * (((i + 1) / 2 : ℤ) : ℚ))
    else Int.fract (h - angulo * ((i / 2 : ℤ) : ℚ))
  (ColorRGB.from_hsv h_nuevo s v).to_hex

/-- `CombinacionColoresManager.generar_analogo`. -/
def generar_analogo (hex_base : PyStr) (num_colores : ℤ := 3) :
    Except ColorError (List PyStr) :=
  match ColorRGB.from_hex hex_base with
  | .error e => .error e
  | .ok color_base =>
    let hsv := color_base.to_hsv
    .ok (hex_base :: (pyRange 1 num_colores).map (analogoColor hsv.1 hsv.2.1 hsv.2.2))

/-- `CombinacionColoresManager.generar_triadico`: hues at
`+ i * 120 / 360` for `i ∈ [1, 2]`. -/
def generar_triadico (hex_base : PyStr) : Except ColorError (List PyStr) :=
  match ColorRGB.from_hex hex_base with
  | .error e => .error e
  | .ok color_base =>
    let hsv := color_base.to_hsv
    .ok (hex_base :: ([1, 2] : List ℤ).map (fun i =>
      (ColorRGB.from_hsv (Int.fract (hsv.1 + (i : ℚ) * 120 / 360)) hsv.2.1 hsv.2.2).to_hex))

/-- `CombinacionColoresManager.generar_tetradico`: hues at
`+ i * 90 / 360` for `i ∈ [1, 2, 3]`. -/
def generar_tetradico (hex_base : PyStr) : Except ColorError (List PyStr) :=
  match ColorRGB.from_hex hex_base with
  | .error e => .error e
  | .ok color_base =>
    let hsv := color_base.to_hsv
    .ok (hex_base :: ([1, 2, 3] : List ℤ).map (fun i =>
      (ColorRGB.from_hsv (Int.fract (hsv.1 + (i : ℚ) * 90 / 360)) hsv.2.1 hsv.2.2).to_hex))

/-- `CombinacionColoresManager.generar_monocromatico`:
`l_nuevo = 0.2 + (0.7 * i / (num_colores - 1)) if num_colores > 1 else l`. -/
def generar_monocromatico (hex_base : PyStr) (num_colores : ℤ := 4) :
    Except ColorError (List PyStr) :=
  match ColorRGB.from_hex hex_base with
  | .error e => .error e
  | .ok color_base =>
    let hls := color_base.to_hls
    .ok ((pyRange 0 num_colores).map (fun i : ℤ =>
      let l_nuevo :=
        if 1 < num_colores then 1/5 + (7/10) * (i : ℚ) / ((num_colores : ℚ) - 1)
        else hls.2.1
      (ColorRGB.from_hls hls.1 l_nuevo hls.2.2).to_hex))

/-- The body of the `generar_armonico` loop at index `i ≥ 1`. -/
def armonicoColor (h s v : ℚ) (i : ℤ) : PyStr :=
  let h_nuevo := Int.fract (h + (i : ℚ) * 15 / 360)
  let s_nuevo := max (3/10) (min 1 (s - (i : ℚ) * (1/10)))
  let v_nuevo := max (2/5) (min 1 (v + (i : ℚ) * (1/20)))
  (ColorRGB.from_hsv h_nuevo s_nuevo v_nuevo).to_hex

/-- `CombinacionColoresManager.generar_armonico`. -/
def generar_armonico (hex_base : PyStr) (num_colores : ℤ := 3) :
    Except ColorError (List PyStr) :=
  match ColorRGB.from_hex hex_base with
  | .error e => .error e
  | .ok color_base =>
    let hsv := color_base.to_hsv
    .ok (hex_base :: (pyRange 1 num_colores).map (armonicoColor hsv.1 hsv.2.1 hsv.2.2))

/-- The token `COMPLEMENTARIO`. -/
def tokComplementario : PyStr := [67, 79, 77, 80, 76, 69, 77, 69, 78, 84, 65, 82, 73, 79]

/-- The token `ANALOGO`. -/
def tokAnalogo : PyStr := [65, 78, 65, 76, 79, 71, 79]

/-- The token `TRIADICO`. -/
def tokTriadico : PyStr := [84, 82, 73, 65, 68, 73, 67, 79]

/-- The token `TETRADICO`. -/
def tokTetradico : PyStr := [84, 69, 84, 82, 65, 68, 73, 67, 79]

/-- The token `MONOCROMATICO`. -/
def tokMonocromatico : PyStr := [77, 79, 78, 79, 67, 82, 79, 77, 65, 84, 73, 67, 79]

/-- The token `ARMONICO`. -/
def tokArmonico : PyStr := [65, 82, 77, 79, 78, 73, 67, 79]

/-- Python's `str.upper()` on an ASCII code point: `'a'`–`'z'` map to
`'A'`–`'Z'` and every other ASCII code point is unchanged.  Used for
normalizing hexadecimal digits, which are always ASCII; the
scheme-token dispatch instead keeps the full Unicode mapping abstract
(see `upperASCII`). -/
def pyUpperChar (c : ℕ) : ℕ := if 97 ≤ c ∧ c ≤ 122 then c - 32 else c

/-- CPython's `str.upper()` applies the full Unicode uppercase mapping
to each code point independently, producing one or more code points;
non-ASCII code points can map into ASCII (`'ß'` maps to `"SS"`, and
dotless `'ı'`, U+0131, maps to `'I'`).  The per-character mapping is
taken as a parameter `up`; `upperASCII up` records its behavior on
the ASCII range — all the dispatch analysis relies on, and true of
CPython's mapping. -/
def upperASCII (up : ℕ → List ℕ) : Prop :=
  ∀ c : ℕ, c < 128 → up c = if 97 ≤ c ∧ c ≤ 122 then [c - 32] else [c]

/-- `str.upper()` of a string: the concatenation of the
per-character uppercase mappings. -/
def pyUpper (up : ℕ → List ℕ) : PyStr → PyStr
  | [] => []
  | c :: t => up c ++ pyUpper up t

/-- `CombinacionColoresManager.generar_esquema`: uppercase the token
with `str.upper()` (its per-character Unicode mapping passed as the
parameter `up`) and dispatch; any unrecognized token raises
`ValueError("Tipo de esquema no válido: ...")`. -/
def generar_esquema (up : ℕ → List ℕ) (tipo_esquema : PyStr) (hex_base : PyStr)
    (num_colores : ℤ := 3) : Except ColorError (List PyStr) :=
  let t := pyUpper up tipo_esquema
  if t = tokComplementario then generar_complementario hex_base
  else if t = tokAnalogo then generar_analogo hex_base num_colores
  else if t = tokTriadico then generar_triadico hex_base
  else if t = tokTetradico then generar_tetradico hex_base
  else if t = tokMonocromatico then generar_monocromatico hex_base num_colores
  else if t = tokArmonico then generar_armonico hex_base num_colores
  else .error .unknownScheme

/-- The inner `luminancia_relativa` of `calcular_contraste`.  The only
non-rational operation of the engine is `x ** 2.4` on `[0, 1]`; it is
passed in as the parameter `pw`, and the theorems assume of `pw` only
properties that the real function `x ↦ x ^ (2.4)` has on `[0, 1]`:
it maps `[0, 1]` into `[0, 1]` and fixes `1`. -/
def luminancia_relativa (pw : ℚ → ℚ) (c : ColorRGB) : ℚ :=
  let r := (c.r : ℚ) / 255
  let g := (c.g : ℚ) / 255
  let b := (c.b : ℚ) / 255
  let r2 := if r ≤ 0.03928 then r / 12.92 else pw ((r + 0.055) / 1.055)
  let g2 := if g ≤ 0.03928 then g / 12.92 else pw ((g + 0.055) / 1.055)
  let b2 := if b ≤ 0.03928 then b / 12.92 else pw ((b + 0.055) / 1.055)
  0.2126 * r2 + 0.7152 * g2 + 0.0722 * b2

/-- `CombinacionColoresManager.calcular_contraste`, parametrized by the
gamma power function `pw` (see `luminancia_relativa`). -/
def calcular_contraste (pw : ℚ → ℚ) (hex_color1 hex_color2 : PyStr) :
    Except ColorError ℚ :=
  match ColorRGB.from_hex hex_color1 with
  | .error e => .error e
  | .ok color1 =>
    match ColorRGB.from_hex hex_color2 with
    | .error e => .error e
    | .ok color2 =>
      let l1 := luminancia_relativa pw color1
      let l2 := luminancia_relativa pw color2
      if l1 < l2 then .ok ((l2 + 0.05) / (l1 + 0.05))
      else .ok ((l1 + 0.05) / (l2 + 0.05))

/-- `CombinacionColoresManager.es_color_claro`:
`0.299 * r + 0.587 * g + 0.114 * b > 127.5`. -/
def es_color_claro (hex_color : PyStr) : Except ColorError Bool :=
  match ColorRGB.from_hex hex_color with
  | .error e => .error e
  | .ok color =>
    .ok (decide ((255 / 2 : ℚ) <
      0.299 * (color.r : ℚ) + 0.587 * (color.g : ℚ) + 0.114 * (color.b : ℚ)))

/-- The string `#000000`. -/
def strNegro : PyStr := [35, 48, 48, 48, 48, 48, 48]

/-- The string `#FFFFFF`. -/
def strBlanco : PyStr := [35, 70, 70, 70, 70, 70, 70]

/-- `CombinacionColoresManager.sugerir_color_texto`: black on a light
background, white on a dark one. -/
def sugerir_color_texto (hex_fondo : PyStr) : Except ColorError PyStr :=
  match es_color_claro hex_fondo with
  | .error e => .error e
  | .ok claro => .ok (if claro then strNegro else strBlanco)

/-- Whether a code point is a hexadecimal digit. -/
def isHexDigitCode (c : ℕ) : Bool := (hexDigitVal? c).isSome

/-- Modelled from the spec: strip one optional leading `'#'`. -/
def specStrip (s : PyStr) : PyStr :=
  match s with
  | c :: rest => if c = 35 then rest else s
  | [] => s

/-- Modelled from the spec: a hex string is well formed when, after
stripping one optional leading `'#'`, the remainder is exactly six
hexadecimal digits.  (Stated from the spec's words; the code strips
every leading `'#'` and delegates digit checking to `int(·, 16)`.) -/
def specHexValid (s : PyStr) : Bool :=
  (specStrip s).length == 6 && (specStrip s).all isHexDigitCode

/-- Modelled from the spec: `normalize(h)` — uppercase the digits and
prefix with `'#'`. -/
def normalizeHex (s : PyStr) : PyStr :=
  35 :: (specStrip s).map pyUpperChar

/-- The exact acceptance condition of `ColorRGB.from_hex`: after
stripping every leading `'#'`, exactly six characters remain and the
three two-character slices are accepted by `int(·, 16)`. -/
def pythonHexOk (s : PyStr) : Bool :=
  match s.dropWhile (fun c => c == 35) with
  | [a1, a2, b1, b2, c1, c2] =>
    (pyIntHex2 a1 a2).isSome && (pyIntHex2 b1 b2).isSome && (pyIntHex2 c1 c2).isSome
  | _ => false

instance {ε α : Type} [DecidableEq ε] [DecidableEq α] : DecidableEq (Except ε α) := fun x y =>
  match x, y with
  | .ok a, .ok b =>
    if h : a = b then .isTrue (by rw [h]) else .isFalse (fun hh => h (Except.ok.inj hh))
  | .error a, .error b =>
    if h : a = b then .isTrue (by rw [h]) else .isFalse (fun hh => h (Except.error.inj hh))
  | .ok _, .error _ => .isFalse (fun hh => Except.noConfusion hh)
  | .error _, .ok _ => .isFalse (fun hh => Except.noConfusion hh)

/-- All three channels lie in `[0, 255]`. -/
def ColorRGB.inRange (c : ColorRGB) : Prop :=
  0 ≤ c.r ∧ c.r ≤ 255 ∧ 0 ≤ c.g ∧ c.g ≤ 255 ∧ 0 ≤ c.b ∧ c.b ≤ 255

lemma mkColorRGB_inRange (r g b : ℤ) : (mkColorRGB r g b).inRange := by
  unfold mkColorRGB ColorRGB.inRange
  dsimp only
  omega

lemma mkColorRGB_eq_self (r g b : ℤ) (hr0 : 0 ≤ r) (hr1 : r ≤ 255) (hg0 : 0 ≤ g)
    (hg1 : g ≤ 255) (hb0 : 0 ≤ b) (hb1 : b ≤ 255) : mkColorRGB r g b = ⟨r, g, b⟩ := by
  unfold mkColorRGB
  congr 1 <;> omega

lemma from_hex_of_dropWhile_six (s : PyStr) (a1 a2 b1 b2 c1 c2 : ℕ)
    (hd : s.dropWhile (fun c => c == 35) = [a1, a2, b1, b2, c1, c2]) :
    ColorRGB.from_hex s =
      match pyIntHex2 a1 a2, pyIntHex2 b1 b2, pyIntHex2 c1 c2 with
      | some r, some g, some b => .ok (mkColorRGB r g b)
      | _, _, _ => .error .invalidFormat := by
  unfold ColorRGB.from_hex
  rw [hd]

lemma from_hex_of_dropWhile_len (s : PyStr)
    (hd : (s.dropWhile (fun c => c == 35)).length ≠ 6) :
    ColorRGB.from_hex s = .error .invalidFormat := by
  unfold ColorRGB.from_hex
  rcases hs : s.dropWhile (fun c => c == 35) with _ | ⟨a1, _ | ⟨a2, _ | ⟨b1, _ | ⟨b2, _ | ⟨c1, _ | ⟨c2, _ | ⟨x, l⟩⟩⟩⟩⟩⟩⟩ <;>
    rw [hs] at hd <;> first
    | rfl
    | exact absurd rfl hd

lemma from_hex_ok_mk (s : PyStr) (c : ColorRGB) (h : ColorRGB.from_hex s = .ok c) :
    ∃ r g b : ℤ, c = mkColorRGB r g b := by
  by_cases hlen : (s.dropWhile (fun c => c == 35)).length = 6
  · rcases hs : s.dropWhile (fun c => c == 35) with _ | ⟨a1, _ | ⟨a2, _ | ⟨b1, _ | ⟨b2, _ | ⟨c1, _ | ⟨c2, _ | ⟨x, l⟩⟩⟩⟩⟩⟩⟩ <;>
      rw [hs] at hlen <;> try simp at hlen
    rw [from_hex_of_dropWhile_six s a1 a2 b1 b2 c1 c2 hs] at h
    rcases h1 : pyIntHex2 a1 a2 with _ | r <;> rcases h2 : pyIntHex2 b1 b2 with _ | g <;>
      rcases h3 : pyIntHex2 c1 c2 with _ | b <;> rw [h1, h2, h3] at h <;> first
      | exact Except.noConfusion h
      | exact ⟨_, _, _, (Except.ok.inj h).symm⟩
  · rw [from_hex_of_dropWhile_len s hlen] at h
    exact Except.noConfusion h

lemma from_hex_ok_inRange (s : PyStr) (c : ColorRGB) (h : ColorRGB.from_hex s = .ok c) :
    c.inRange := by
  obtain ⟨r, g, b, rfl⟩ := from_hex_ok_mk s c h
  exact mkColorRGB_inRange r g b

lemma from_hex_error_eq (s : PyStr) (e : ColorError)
    (h : ColorRGB.from_hex s = .error e) : e = .invalidFormat := by
  by_cases hlen : (s.dropWhile (fun c => c == 35)).length = 6
  · rcases hs : s.dropWhile (fun c => c == 35) with _ | ⟨a1, _ | ⟨a2, _ | ⟨b1, _ | ⟨b2, _ | ⟨c1, _ | ⟨c2, _ | ⟨x, l⟩⟩⟩⟩⟩⟩⟩ <;>
      rw [hs] at hlen <;> try simp at hlen
    rw [from_hex_of_dropWhile_six s a1 a2 b1 b2 c1 c2 hs] at h
    rcases h1 : pyIntHex2 a1 a2 with _ | r <;> rcases h2 : pyIntHex2 b1 b2 with _ | g <;>
      rcases h3 : pyIntHex2 c1 c2 with _ | b <;> rw [h1, h2, h3] at h <;> first
      | exact (Except.error.inj h).symm
      | exact Except.noConfusion h
  · rw [from_hex_of_dropWhile_len s hlen] at h
    exact (Except.error.inj h).symm

lemma hexDigitVal_facts (c v : ℕ) (h : hexDigitVal? c = some v) :
    v < 16 ∧ (c == 35) = false ∧ upperHexDigit v = pyUpperChar c := by
  unfold hexDigitVal? at h
  split_ifs at h with h1 h2 h3 <;> simp only [Option.some.injEq] at h <;>
    (subst h
     refine ⟨by omega, by simp only [beq_eq_false_iff_ne, ne_eq]; omega, ?_⟩
     unfold upperHexDigit pyUpperChar
     split_ifs <;> omega)

lemma hexDigitVal_upperHexDigit (v : ℕ) (h : v < 16) :
    hexDigitVal? (upperHexDigit v) = some v := by
  unfold hexDigitVal? upperHexDigit
  split_ifs <;> first
  | (simp only [Option.some.injEq]; omega)
  | omega

lemma pyIntHex2_digits (c1 c2 v1 v2 : ℕ) (h1 : hexDigitVal? c1 = some v1)
    (h2 : hexDigitVal? c2 = some v2) :
    pyIntHex2 c1 c2 = some (16 * (v1 : ℤ) + (v2 : ℤ)) := by
  unfold pyIntHex2
  rw [h1, h2]

lemma hexPair_digits (v1 v2 : ℕ) (h1 : v1 < 16) (h2 : v2 < 16) :
    hexPair (16 * (v1 : ℤ) + (v2 : ℤ)) = [upperHexDigit v1, upperHexDigit v2] := by
  unfold hexPair
  have ht : (16 * (v1 : ℤ) + (v2 : ℤ)).toNat = 16 * v1 + v2 := by omega
  rw [ht]
  have e1 : (16 * v1 + v2) / 16 % 16 = v1 := by omega
  have e2 : (16 * v1 + v2) % 16 = v2 := by omega
  rw [e1, e2]

lemma beq_hash_false_of_upper (v : ℕ) : (upperHexDigit v == 35) = false := by
  unfold upperHexDigit
  split_ifs <;> simp <;> omega

lemma to_hex_dropWhile (c : ColorRGB) :
    (ColorRGB.to_hex c).dropWhile (fun x => x == 35) =
      [upperHexDigit (c.r.toNat / 16 % 16), upperHexDigit (c.r.toNat % 16),
       upperHexDigit (c.g.toNat / 16 % 16), upperHexDigit (c.g.toNat % 16),
       upperHexDigit (c.b.toNat / 16 % 16), upperHexDigit (c.b.toNat % 16)] := by
  unfold ColorRGB.to_hex hexPair
  simp only [List.cons_append, List.nil_append, List.dropWhile_cons]
  simp [beq_hash_false_of_upper]

lemma from_hex_to_hex (c : ColorRGB) (hc : c.inRange) :
    ColorRGB.from_hex c.to_hex = .ok c := by
  obtain ⟨h1, h2, h3, h4, h5, h6⟩ := hc
  have hlt : ∀ n : ℤ, n.toNat / 16 % 16 < 16 ∧ n.toNat % 16 < 16 := fun n => by omega
  rw [from_hex_of_dropWhile_six _ _ _ _ _ _ _ (to_hex_dropWhile c)]
  rw [pyIntHex2_digits _ _ _ _ (hexDigitVal_upperHexDigit _ (hlt c.r).1)
        (hexDigitVal_upperHexDigit _ (hlt c.r).2),
      pyIntHex2_digits _ _ _ _ (hexDigitVal_upperHexDigit _ (hlt c.g).1)
        (hexDigitVal_upperHexDigit _ (hlt c.g).2),
      pyIntHex2_digits _ _ _ _ (hexDigitVal_upperHexDigit _ (hlt c.b).1)
        (hexDigitVal_upperHexDigit _ (hlt c.b).2)]
  have er : 16 * ((c.r.toNat / 16 % 16 : ℕ) : ℤ) + ((c.r.toNat % 16 : ℕ) : ℤ) = c.r := by omega
  have eg : 16 * ((c.g.toNat / 16 % 16 : ℕ) : ℤ) + ((c.g.toNat % 16 : ℕ) : ℤ) = c.g := by omega
  have eb : 16 * ((c.b.toNat / 16 % 16 : ℕ) : ℤ) + ((c.b.toNat % 16 : ℕ) : ℤ) = c.b := by omega
  rw [er, eg, eb]
  show Except.ok (mkColorRGB c.r c.g c.b) = Except.ok c
  rw [mkColorRGB_eq_self c.r c.g c.b h1 h2 h3 h4 h5 h6]

lemma pythonHexOk_of_dropWhile_len (s : PyStr)
    (hd : (s.dropWhile (fun c => c == 35)).length ≠ 6) : pythonHexOk s = false := by
  unfold pythonHexOk
  rcases hs : s.dropWhile (fun c => c == 35) with _ | ⟨a1, _ | ⟨a2, _ | ⟨b1, _ | ⟨b2, _ | ⟨c1, _ | ⟨c2, _ | ⟨x, l⟩⟩⟩⟩⟩⟩⟩ <;>
    rw [hs] at hd <;> first
    | rfl
    | exact absurd rfl hd

lemma pythonHexOk_of_dropWhile_six (s : PyStr) (a1 a2 b1 b2 c1 c2 : ℕ)
    (hd : s.dropWhile (fun c => c == 35) = [a1, a2, b1, b2, c1, c2]) :
    pythonHexOk s =
      ((pyIntHex2 a1 a2).isSome && (pyIntHex2 b1 b2).isSome && (pyIntHex2 c1 c2).isSome) := by
  unfold pythonHexOk
  rw [hd]

/-- **C5, claim as stated is false.**  `"##AABBCC"` is not an optional
`'#'` followed by six hex digits (the spec-side `specHexValid` rejects
it), yet `from_hex` accepts it: Python's `lstrip('#')` strips every
leading `'#'`, not just one. -/
theorem C5_counterexample_double_hash :
    ColorRGB.from_hex [35, 35, 65, 65, 66, 66, 67, 67] = .ok ⟨170, 187, 204⟩ ∧
    specHexValid [35, 35, 65, 65, 66, 66, 67, 67] = false := by
  decide

/-- **C5 (amended).**  For every string of ASCII code points,
`from_hex` fails with `InvalidFormatError` iff, after stripping *all*
leading `'#'` characters, the remainder is not exactly six characters
whose three two-character slices are each accepted by Python's
`int(·, 16)`; in particular every string of exactly six hexadecimal
digits succeeds, with or without a leading `'#'`, and `"ZZZZZZ"` and
`"#ABC"` both fail.  (The ASCII scope is where `pyIntHex2` is an exact
embedding of `int(·, 16)`; on non-ASCII inputs CPython additionally
accepts Unicode decimal digits and Unicode whitespace in the slices,
enlarging the acceptance set.) -/
theorem C5_from_hex_failure_iff :
    (∀ s : PyStr, (∀ c ∈ s, c < 128) →
      (ColorRGB.from_hex s = .error .invalidFormat ↔ pythonHexOk s = false)) ∧
    (∀ s : PyStr, s.length = 6 → (∀ x ∈ s, isHexDigitCode x = true) →
      pythonHexOk s = true ∧ pythonHexOk (35 :: s) = true ∧
      (∀ e, ColorRGB.from_hex s ≠ .error e) ∧
      (∀ e, ColorRGB.from_hex (35 :: s) ≠ .error e)) ∧
    ColorRGB.from_hex [90, 90, 90, 90, 90, 90] = .error .invalidFormat ∧
    ColorRGB.from_hex [35, 65, 66, 67] = .error .invalidFormat := by
  have key : ∀ s : PyStr, ColorRGB.from_hex s = .error .invalidFormat ↔ pythonHexOk s = false := by
    intro s
    by_cases hlen : (s.dropWhile (fun c => c == 35)).length = 6
    · rcases hs : s.dropWhile (fun c => c == 35) with _ | ⟨a1, _ | ⟨a2, _ | ⟨b1, _ | ⟨b2, _ | ⟨c1, _ | ⟨c2, _ | ⟨x, l⟩⟩⟩⟩⟩⟩⟩ <;>
        rw [hs] at hlen <;> try simp at hlen
      rw [from_hex_of_dropWhile_six _ _ _ _ _ _ _ hs,
          pythonHexOk_of_dropWhile_six _ _ _ _ _ _ _ hs]
      rcases h1 : pyIntHex2 a1 a2 with _ | r <;> rcases h2 : pyIntHex2 b1 b2 with _ | g <;>
        rcases h3 : pyIntHex2 c1 c2 with _ | b <;> simp
    · rw [from_hex_of_dropWhile_len s hlen, pythonHexOk_of_dropWhile_len s hlen]
      simp
  refine ⟨fun s _ => key s, ?_, by decide, by decide⟩
  intro s hlen hall
  rcases s with _ | ⟨d1, _ | ⟨d2, _ | ⟨d3, _ | ⟨d4, _ | ⟨d5, _ | ⟨d6, _ | ⟨x, l⟩⟩⟩⟩⟩⟩⟩ <;>
    try simp at hlen
  have hd1 := hall d1 (by simp)
  have hd2 := hall d2 (by simp)
  have hd3 := hall d3 (by simp)
  have hd4 := hall d4 (by simp)
  have hd5 := hall d5 (by simp)
  have hd6 := hall d6 (by simp)
  unfold isHexDigitCode at hd1 hd2 hd3 hd4 hd5 hd6
  rw [Option.isSome_iff_exists] at hd1 hd2 hd3 hd4 hd5 hd6
  obtain ⟨v1, hv1⟩ := hd1
  obtain ⟨v2, hv2⟩ := hd2
  obtain ⟨v3, hv3⟩ := hd3
  obtain ⟨v4, hv4⟩ := hd4
  obtain ⟨v5, hv5⟩ := hd5
  obtain ⟨v6, hv6⟩ := hd6
  have hne := (hexDigitVal_facts d1 v1 hv1).2.1
  have hdw : List.dropWhile (fun c => c == 35) (d1 :: d2 :: d3 :: d4 :: d5 :: d6 :: []) =
      [d1, d2, d3, d4, d5, d6] := by
    rw [List.dropWhile_cons, hne]
    simp
  have hdw2 : List.dropWhile (fun c => c == 35) (35 :: d1 :: d2 :: d3 :: d4 :: d5 :: d6 :: []) =
      [d1, d2, d3, d4, d5, d6] := by
    rw [List.dropWhile_cons, if_pos (show ((35 : ℕ) == 35) = true from rfl)]
    exact hdw
  have hok : pythonHexOk (d1 :: d2 :: d3 :: d4 :: d5 :: d6 :: []) = true := by
    rw [pythonHexOk_of_dropWhile_six _ _ _ _ _ _ _ hdw,
        pyIntHex2_digits _ _ _ _ hv1 hv2, pyIntHex2_digits _ _ _ _ hv3 hv4,
        pyIntHex2_digits _ _ _ _ hv5 hv6]
    rfl
  have hok2 : pythonHexOk (35 :: d1 :: d2 :: d3 :: d4 :: d5 :: d6 :: []) = true := by
    rw [pythonHexOk_of_dropWhile_six _ _ _ _ _ _ _ hdw2,
        pyIntHex2_digits _ _ _ _ hv1 hv2, pyIntHex2_digits _ _ _ _ hv3 hv4,
        pyIntHex2_digits _ _ _ _ hv5 hv6]
    rfl
  refine ⟨hok, hok2, ?_, ?_⟩
  · intro e he
    have := from_hex_error_eq _ _ he
    subst this
    rw [key] at he
    rw [hok] at he
    exact Bool.noConfusion he
  · intro e he
    have := from_hex_error_eq _ _ he
    subst this
    rw [key] at he
    rw [hok2] at he
    exact Bool.noConfusion he

/-- Witness for `C5_from_hex_failure_iff` at the six-digit string
`"A0b1C2"` and, for the ASCII-scoped iff, at `"ZZZZZZ"`. -/
theorem C5_from_hex_failure_iff_witness :
    pythonHexOk [65, 48, 98, 49, 67, 50] = true ∧
    (∀ e, ColorRGB.from_hex [65, 48, 98, 49, 67, 50] ≠ .error e) ∧
    ColorRGB.from_hex [90, 90, 90, 90, 90, 90] = .error .invalidFormat :=
  ⟨(C5_from_hex_failure_iff.2.1 [65, 48, 98, 49, 67, 50] (by decide)
      (by decide)).1,
   (C5_from_hex_failure_iff.2.1 [65, 48, 98, 49, 67, 50] (by decide)
      (by decide)).2.2.1,
   (C5_from_hex_failure_iff.1 [90, 90, 90, 90, 90, 90] (by decide)).mpr
      (by decide)⟩

lemma specStrip_cons (c : ℕ) (t : PyStr) :
    specStrip (c :: t) = if c = 35 then t else c :: t := rfl

lemma isHexDigitCode_ne_hash (c : ℕ) (h : isHexDigitCode c = true) : (c == 35) = false := by
  unfold isHexDigitCode at h
  rw [Option.isSome_iff_exists] at h
  obtain ⟨v, hv⟩ := h
  exact (hexDigitVal_facts c v hv).2.1

lemma render_of_six_hex (d1 d2 d3 d4 d5 d6 : ℕ) (s : PyStr)
    (g1 : isHexDigitCode d1 = true) (g2 : isHexDigitCode d2 = true)
    (g3 : isHexDigitCode d3 = true) (g4 : isHexDigitCode d4 = true)
    (g5 : isHexDigitCode d5 = true) (g6 : isHexDigitCode d6 = true)
    (hs : s.dropWhile (fun c => c == 35) = [d1, d2, d3, d4, d5, d6]) :
    (ColorRGB.from_hex s).map ColorRGB.to_hex =
      .ok (35 :: [d1, d2, d3, d4, d5, d6].map pyUpperChar) := by
  unfold isHexDigitCode at g1 g2 g3 g4 g5 g6
  rw [Option.isSome_iff_exists] at g1 g2 g3 g4 g5 g6
  obtain ⟨v1, e1⟩ := g1
  obtain ⟨v2, e2⟩ := g2
  obtain ⟨v3, e3⟩ := g3
  obtain ⟨v4, e4⟩ := g4
  obtain ⟨v5, e5⟩ := g5
  obtain ⟨v6, e6⟩ := g6
  obtain ⟨l1, -, u1⟩ := hexDigitVal_facts d1 v1 e1
  obtain ⟨l2, -, u2⟩ := hexDigitVal_facts d2 v2 e2
  obtain ⟨l3, -, u3⟩ := hexDigitVal_facts d3 v3 e3
  obtain ⟨l4, -, u4⟩ := hexDigitVal_facts d4 v4 e4
  obtain ⟨l5, -, u5⟩ := hexDigitVal_facts d5 v5 e5
  obtain ⟨l6, -, u6⟩ := hexDigitVal_facts d6 v6 e6
  rw [from_hex_of_dropWhile_six _ _ _ _ _ _ _ hs,
      pyIntHex2_digits _ _ _ _ e1 e2, pyIntHex2_digits _ _ _ _ e3 e4,
      pyIntHex2_digits _ _ _ _ e5 e6]
  show Except.ok (ColorRGB.to_hex (mkColorRGB
      (16 * (v1 : ℤ) + (v2 : ℤ)) (16 * (v3 : ℤ) + (v4 : ℤ)) (16 * (v5 : ℤ) + (v6 : ℤ)))) = _
  rw [mkColorRGB_eq_self _ _ _ (by omega) (by omega) (by omega) (by omega) (by omega) (by omega)]
  unfold ColorRGB.to_hex
  dsimp only
  rw [hexPair_digits v1 v2 l1 l2, hexPair_digits v3 v4 l3 l4, hexPair_digits v5 v6 l5 l6,
      u1, u2, u3, u4, u5, u6]
  rfl

/-- **C2.**  The hex ↔ RGB correspondence is lossless: parsing a well
formed hex string (optional `'#'` plus six hex digits) and rendering
back yields its normalized form exactly, and rendering any clamped RGB
triple and parsing back yields the identical triple. -/
theorem C2_hex_rgb_lossless :
    (∀ s : PyStr, specHexValid s = true →
      (ColorRGB.from_hex s).map ColorRGB.to_hex = .ok (normalizeHex s)) ∧
    (∀ r g b : ℤ, 0 ≤ r → r ≤ 255 → 0 ≤ g → g ≤ 255 → 0 ≤ b → b ≤ 255 →
      ColorRGB.from_hex (mkColorRGB r g b).to_hex = .ok (mkColorRGB r g b)) := by
  constructor
  · intro s hval
    unfold specHexValid at hval
    rw [Bool.and_eq_true, Nat.beq_eq_true_eq, List.all_eq_true] at hval
    obtain ⟨hlen, hall⟩ := hval
    have hshape : ∀ t : PyStr, t.length = 6 → (∀ x ∈ t, isHexDigitCode x = true) →
        ∀ s' : PyStr, s'.dropWhile (fun c => c == 35) = t →
        (ColorRGB.from_hex s').map ColorRGB.to_hex = .ok (35 :: t.map pyUpperChar) := by
      intro t hlen6 hx s' hs'
      rcases t with _ | ⟨d1, _ | ⟨d2, _ | ⟨d3, _ | ⟨d4, _ | ⟨d5, _ | ⟨d6, _ | ⟨y, l⟩⟩⟩⟩⟩⟩⟩ <;>
        try simp at hlen6
      exact render_of_six_hex d1 d2 d3 d4 d5 d6 s'
        (hx d1 (by simp)) (hx d2 (by simp)) (hx d3 (by simp))
        (hx d4 (by simp)) (hx d5 (by simp)) (hx d6 (by simp)) hs'
    have hstrip : s.dropWhile (fun c => c == 35) = specStrip s := by
      rcases s with _ | ⟨c0, t⟩
      · rfl
      rw [specStrip_cons] at hlen hall ⊢
      by_cases hc0 : c0 = 35
      · subst hc0
        rw [if_pos rfl] at hlen hall ⊢
        rw [List.dropWhile_cons, if_pos (show ((35 : ℕ) == 35) = true from rfl)]
        rcases t with _ | ⟨d1, t'⟩
        · simp at hlen
        have hne := isHexDigitCode_ne_hash d1 (hall d1 (by simp))
        rw [List.dropWhile_cons, hne]
        simp
      · rw [if_neg hc0] at hlen hall ⊢
        have hne := isHexDigitCode_ne_hash c0 (hall c0 (by simp))
        rw [List.dropWhile_cons, hne]
        simp
    unfold normalizeHex
    exact hshape (specStrip s) hlen hall s hstrip
  · intro r g b hr0 hr1 hg0 hg1 hb0 hb1
    exact from_hex_to_hex (mkColorRGB r g b) (mkColorRGB_inRange r g b)

/-- Witness for `C2_hex_rgb_lossless`: the lowercase string
`"#3498db"` round trips to `"#3498DB"`, and the triple `(52, 152, 219)`
round trips to itself. -/
theorem C2_hex_rgb_lossless_witness :
    specHexValid [35, 51, 52, 57, 56, 100, 98] = true ∧
    (ColorRGB.from_hex [35, 51, 52, 57, 56, 100, 98]).map ColorRGB.to_hex =
      .ok [35, 51, 52, 57, 56, 68, 66] ∧
    ColorRGB.from_hex (mkColorRGB 52 152 219).to_hex = .ok (mkColorRGB 52 152 219) :=
  ⟨by decide,
   by rw [C2_hex_rgb_lossless.1 [35, 51, 52, 57, 56, 100, 98] (by decide)]; decide,
   C2_hex_rgb_lossless.2 52 152 219 (by decide) (by decide) (by decide) (by decide)
     (by decide) (by decide)⟩

lemma pyUpper_ascii (up : ℕ → List ℕ) (hup : upperASCII up) (s : PyStr)
    (hs : ∀ c ∈ s, c < 128) : pyUpper up s = s.map pyUpperChar := by
  induction s with
  | nil => rfl
  | cons c t ih =>
    have hc : up c = [pyUpperChar c] := by
      rw [hup c (hs c (by simp))]
      unfold pyUpperChar
      split_ifs <;> rfl
    show up c ++ pyUpper up t = pyUpperChar c :: t.map pyUpperChar
    rw [hc, ih (fun x hx => hs x (by simp [hx]))]
    rfl

/-- **C6.**  `generar_esquema` uppercases the scheme token with
CPython's `str.upper()` — whose full Unicode per-character mapping is
abstracted as any `up` satisfying `upperASCII up`, the ASCII behavior
the real mapping has — dispatches to exactly the matching generator
among the six recognized names, and fails with `UnknownSchemeError` on
every token whose uppercased form is not one of them; in particular
`"no_such_scheme"` is rejected for every base and count. -/
theorem C6_scheme_dispatch (up : ℕ → List ℕ) (hup : upperASCII up) :
    (∀ tipo base : PyStr, ∀ n : ℤ,
      (pyUpper up tipo = tokComplementario →
        generar_esquema up tipo base n = generar_complementario base) ∧
      (pyUpper up tipo = tokAnalogo →
        generar_esquema up tipo base n = generar_analogo base n) ∧
      (pyUpper up tipo = tokTriadico →
        generar_esquema up tipo base n = generar_triadico base) ∧
      (pyUpper up tipo = tokTetradico →
        generar_esquema up tipo base n = generar_tetradico base) ∧
      (pyUpper up tipo = tokMonocromatico →
        generar_esquema up tipo base n = generar_monocromatico base n) ∧
      (pyUpper up tipo = tokArmonico →
        generar_esquema up tipo base n = generar_armonico base n) ∧
      (pyUpper up tipo ∉ [tokComplementario, tokAnalogo, tokTriadico,
          tokTetradico, tokMonocromatico, tokArmonico] →
        generar_esquema up tipo base n = .error .unknownScheme)) ∧
    (∀ base : PyStr, ∀ n : ℤ,
      generar_esquema up [110, 111, 95, 115, 117, 99, 104, 95, 115, 99, 104, 101, 109, 101]
        base n = .error .unknownScheme) := by
  have hdis : ∀ tipo base : PyStr, ∀ n : ℤ,
      generar_esquema up tipo base n =
        (if pyUpper up tipo = tokComplementario then generar_complementario base
         else if pyUpper up tipo = tokAnalogo then generar_analogo base n
         else if pyUpper up tipo = tokTriadico then generar_triadico base
         else if pyUpper up tipo = tokTetradico then generar_tetradico base
         else if pyUpper up tipo = tokMonocromatico then generar_monocromatico base n
         else if pyUpper up tipo = tokArmonico then generar_armonico base n
         else .error .unknownScheme) := fun tipo base n => rfl
  constructor
  · intro tipo base n
    refine ⟨fun ht => ?_, fun ht => ?_, fun ht => ?_, fun ht => ?_, fun ht => ?_,
            fun ht => ?_, fun ht => ?_⟩ <;> rw [hdis]
    · rw [ht, if_pos rfl]
    · rw [ht, if_neg (by decide), if_pos rfl]
    · rw [ht, if_neg (by decide), if_neg (by decide), if_pos rfl]
    · rw [ht, if_neg (by decide), if_neg (by decide), if_neg (by decide), if_pos rfl]
    · rw [ht, if_neg (by decide), if_neg (by decide), if_neg (by decide), if_neg (by decide),
          if_pos rfl]
    · rw [ht, if_neg (by decide), if_neg (by decide), if_neg (by decide), if_neg (by decide),
          if_neg (by decide), if_pos rfl]
    · simp only [List.mem_cons, List.not_mem_nil, or_false] at ht
      push_neg at ht
      obtain ⟨n1, n2, n3, n4, n5, n6⟩ := ht
      rw [if_neg n1, if_neg n2, if_neg n3, if_neg n4, if_neg n5, if_neg n6]
  · intro base n
    have hns : pyUpper up [110, 111, 95, 115, 117, 99, 104, 95, 115, 99, 104, 101, 109, 101] =
        [78, 79, 95, 83, 85, 67, 72, 95, 83, 67, 72, 69, 77, 69] := by
      rw [pyUpper_ascii up hup _ (by decide)]
      decide
    rw [hdis, hns]
    rw [if_neg (by decide), if_neg (by decide), if_neg (by decide), if_neg (by decide),
        if_neg (by decide), if_neg (by decide)]

/-- Witness for `C6_scheme_dispatch` at the ASCII instantiation of
the uppercase mapping: the lowercase token `"triadico"` dispatches to
the triadic generator and `"no_such_scheme"` is rejected. -/
theorem C6_scheme_dispatch_witness :
    pyUpper (fun c => [pyUpperChar c]) [116, 114, 105, 97, 100, 105, 99, 111] = tokTriadico ∧
    generar_esquema (fun c => [pyUpperChar c]) [116, 114, 105, 97, 100, 105, 99, 111]
      [35, 51, 52, 57, 56, 68, 66] 3 = generar_triadico [35, 51, 52, 57, 56, 68, 66] ∧
    generar_esquema (fun c => [pyUpperChar c])
      [110, 111, 95, 115, 117, 99, 104, 95, 115, 99, 104, 101, 109, 101]
      [35, 51, 52, 57, 56, 68, 66] 3 = .error .unknownScheme := by
  have h := C6_scheme_dispatch (fun c => [pyUpperChar c])
    (by unfold upperASCII ; decide)
  exact ⟨by decide,
    (h.1 [116, 114, 105, 97, 100, 105, 99, 111] [35, 51, 52, 57, 56, 68, 66] 3).2.2.1
      (by decide),
    h.2 [35, 51, 52, 57, 56, 68, 66] 3⟩

lemma es_color_claro_eq (s : PyStr) (c : ColorRGB) (h : ColorRGB.from_hex s = .ok c) :
    es_color_claro s =
      .ok (decide ((255 / 2 : ℚ) <
        0.299 * (c.r : ℚ) + 0.587 * (c.g : ℚ) + 0.114 * (c.b : ℚ))) := by
  unfold es_color_claro
  rw [h]

/-- **C9.**  `es_color_claro` holds exactly when the perceived
luminosity `0.299·R + 0.587·G + 0.114·B` strictly exceeds `127.5`, and
`sugerir_color_texto` suggests black exactly on light backgrounds and
white otherwise; `"#FFFFFF"` is light, `"#000000"` is not, and the
suggested text color on white is black. -/
theorem C9_es_color_claro_spec :
    (∀ s : PyStr, ∀ c : ColorRGB, ColorRGB.from_hex s = .ok c →
      ((es_color_claro s = .ok true ↔
          (127.5 : ℚ) < 0.299 * (c.r : ℚ) + 0.587 * (c.g : ℚ) + 0.114 * (c.b : ℚ)) ∧
       (sugerir_color_texto s = .ok strNegro ↔ es_color_claro s = .ok true) ∧
       (sugerir_color_texto s = .ok strBlanco ↔ es_color_claro s = .ok false))) ∧
    es_color_claro strBlanco = .ok true ∧
    es_color_claro strNegro = .ok false ∧
    sugerir_color_texto strBlanco = .ok strNegro := by
  have hmain : ∀ s : PyStr, ∀ c : ColorRGB, ColorRGB.from_hex s = .ok c →
      ((es_color_claro s = .ok true ↔
          (127.5 : ℚ) < 0.299 * (c.r : ℚ) + 0.587 * (c.g : ℚ) + 0.114 * (c.b : ℚ)) ∧
       (sugerir_color_texto s = .ok strNegro ↔ es_color_claro s = .ok true) ∧
       (sugerir_color_texto s = .ok strBlanco ↔ es_color_claro s = .ok false)) := by
    intro s c h
    have hclaro := es_color_claro_eq s c h
    have h255 : (127.5 : ℚ) = 255 / 2 := by norm_num
    refine ⟨?_, ?_, ?_⟩
    · rw [hclaro, h255]
      constructor
      · intro hh
        exact of_decide_eq_true (Except.ok.inj hh)
      · intro hh
        rw [decide_eq_true hh]
    · unfold sugerir_color_texto
      rw [hclaro]
      rcases hdec : decide ((255 / 2 : ℚ) <
          0.299 * (c.r : ℚ) + 0.587 * (c.g : ℚ) + 0.114 * (c.b : ℚ)) with _ | _
      · simp only [Bool.false_eq_true, if_false]
        constructor
        · intro hh
          exact absurd (Except.ok.inj hh) (by decide)
        · intro hh
          exact absurd (Except.ok.inj hh) (by decide)
      · simp only [if_true]
    · unfold sugerir_color_texto
      rw [hclaro]
      rcases hdec : decide ((255 / 2 : ℚ) <
          0.299 * (c.r : ℚ) + 0.587 * (c.g : ℚ) + 0.114 * (c.b : ℚ)) with _ | _
      · simp only [Bool.false_eq_true, if_false]
      · simp only [if_true]
        constructor
        · intro hh
          exact absurd (Except.ok.inj hh) (by decide)
        · intro hh
          exact absurd (Except.ok.inj hh) (by decide)
  have hwhite : es_color_claro strBlanco = .ok true := by
    rw [es_color_claro_eq strBlanco (mkColorRGB 255 255 255) (by decide)]
    rw [decide_eq_true (by unfold mkColorRGB; norm_num)]
  have hblack : es_color_claro strNegro = .ok false := by
    rw [es_color_claro_eq strNegro (mkColorRGB 0 0 0) (by decide)]
    rw [decide_eq_false (by unfold mkColorRGB; norm_num)]
  refine ⟨hmain, hwhite, hblack, ?_⟩
  unfold sugerir_color_texto
  rw [hwhite]
  rfl

/-- Witness for `C9_es_color_claro_spec` at `"#3498DB"`: its perceived
luminosity `131.364` exceeds `127.5`, so it is light. -/
theorem C9_es_color_claro_spec_witness :
    ColorRGB.from_hex [35, 51, 52, 57, 56, 68, 66] = .ok ⟨52, 152, 219⟩ ∧
    es_color_claro [35, 51, 52, 57, 56, 68, 66] = .ok true :=
  ⟨by decide,
   ((C9_es_color_claro_spec.1 [35, 51, 52, 57, 56, 68, 66] ⟨52, 152, 219⟩
      (by decide)).1).mpr (by norm_num)⟩

/-- **C1.**  For every valid base, the complementary scheme is exactly
`[base, hsv(h+0.5 mod 1, s, v)]` (two colors, base verbatim first),
the triadic scheme is the base followed by hues `+120°, +240°` (three
colors), and the tetradic scheme is the base followed by hues
`+90°, +180°, +270°` (four colors), all with unchanged saturation and
value; for the spec's example `"#3498DB"` the second complementary
color decodes, via HSV decomposition, to exactly the base hue plus
`0.5` modulo `1`. -/
theorem C1_fixed_offset_schemes (s : PyStr) (c : ColorRGB)
    (h : ColorRGB.from_hex s = .ok c) :
    generar_complementario s = .ok [s,
      (ColorRGB.from_hsv (Int.fract (c.to_hsv.1 + 1/2)) c.to_hsv.2.1 c.to_hsv.2.2).to_hex] ∧
    (∀ L, generar_complementario s = .ok L → L.length = 2 ∧ L.head? = some s) ∧
    generar_triadico s = .ok [s,
      (ColorRGB.from_hsv (Int.fract (c.to_hsv.1 + 120/360)) c.to_hsv.2.1 c.to_hsv.2.2).to_hex,
      (ColorRGB.from_hsv (Int.fract (c.to_hsv.1 + 240/360)) c.to_hsv.2.1 c.to_hsv.2.2).to_hex] ∧
    (∀ L, generar_triadico s = .ok L → L.length = 3 ∧ L.head? = some s) ∧
    generar_tetradico s = .ok [s,
      (ColorRGB.from_hsv (Int.fract (c.to_hsv.1 + 90/360)) c.to_hsv.2.1 c.to_hsv.2.2).to_hex,
      (ColorRGB.from_hsv (Int.fract (c.to_hsv.1 + 180/360)) c.to_hsv.2.1 c.to_hsv.2.2).to_hex,
      (ColorRGB.from_hsv (Int.fract (c.to_hsv.1 + 270/360)) c.to_hsv.2.1 c.to_hsv.2.2).to_hex] ∧
    (∀ L, generar_tetradico s = .ok L → L.length = 4 ∧ L.head? = some s) ∧
    (ColorRGB.from_hex ((ColorRGB.from_hsv
        (Int.fract ((mkColorRGB 52 152 219).to_hsv.1 + 1/2))
        (mkColorRGB 52 152 219).to_hsv.2.1
        (mkColorRGB 52 152 219).to_hsv.2.2).to_hex)).map (fun c2 => c2.to_hsv.1) =
      .ok (Int.fract ((mkColorRGB 52 152 219).to_hsv.1 + 1/2)) := by
  have e1 : generar_complementario s = .ok [s,
      (ColorRGB.from_hsv (Int.fract (c.to_hsv.1 + 1/2)) c.to_hsv.2.1 c.to_hsv.2.2).to_hex] := by
    unfold generar_complementario
    rw [h]
  have e2 : generar_triadico s = .ok [s,
      (ColorRGB.from_hsv (Int.fract (c.to_hsv.1 + 120/360)) c.to_hsv.2.1 c.to_hsv.2.2).to_hex,
      (ColorRGB.from_hsv (Int.fract (c.to_hsv.1 + 240/360)) c.to_hsv.2.1 c.to_hsv.2.2).to_hex] := by
    unfold generar_triadico
    rw [h]
    show Except.ok _ = _
    norm_num
  have e3 : generar_tetradico s = .ok [s,
      (ColorRGB.from_hsv (Int.fract (c.to_hsv.1 + 90/360)) c.to_hsv.2.1 c.to_hsv.2.2).to_hex,
      (ColorRGB.from_hsv (Int.fract (c.to_hsv.1 + 180/360)) c.to_hsv.2.1 c.to_hsv.2.2).to_hex,
      (ColorRGB.from_hsv (Int.fract (c.to_hsv.1 + 270/360)) c.to_hsv.2.1 c.to_hsv.2.2).to_hex] := by
    unfold generar_tetradico
    rw [h]
    show Except.ok _ = _
    norm_num
  have hsv3498 : (mkColorRGB 52 152 219).to_hsv = (284/501, 167/219, 73/85) := by
    unfold ColorRGB.to_hsv rgb_to_hsv mkColorRGB
    norm_num [Int.fract, min_def, max_def]
  have hfract : Int.fract ((284 : ℚ)/501 + 1/2) = 67/1002 := by
    norm_num [Int.fract]
  have hfrom : ColorRGB.from_hsv (67/1002) (167/219) (73/85) = ⟨219, 119, 52⟩ := by
    unfold ColorRGB.from_hsv hsv_to_rgb mkColorRGB pyInt
    norm_num
  have hparse : ColorRGB.from_hex ((⟨219, 119, 52⟩ : ColorRGB).to_hex) = .ok ⟨219, 119, 52⟩ := by
    decide
  have hsvDB : (⟨219, 119, 52⟩ : ColorRGB).to_hsv = (67/1002, 167/219, 73/85) := by
    unfold ColorRGB.to_hsv rgb_to_hsv
    norm_num [Int.fract, min_def, max_def]
  refine ⟨e1, fun L hL => ?_, e2, fun L hL => ?_, e3, fun L hL => ?_, ?_⟩
  · rw [e1] at hL
    cases Except.ok.inj hL
    exact ⟨rfl, rfl⟩
  · rw [e2] at hL
    cases Except.ok.inj hL
    exact ⟨rfl, rfl⟩
  · rw [e3] at hL
    cases Except.ok.inj hL
    exact ⟨rfl, rfl⟩
  · rw [hsv3498]
    show (ColorRGB.from_hex ((ColorRGB.from_hsv (Int.fract ((284 : ℚ)/501 + 1/2))
        (167/219) (73/85)).to_hex)).map (fun c2 => c2.to_hsv.1) =
      .ok (Int.fract ((284 : ℚ)/501 + 1/2))
    rw [hfract, hfrom, hparse]
    show Except.ok ((⟨219, 119, 52⟩ : ColorRGB).to_hsv.1) = _
    rw [hsvDB]

/-- Witness for `C1_fixed_offset_schemes` at `"#3498DB"`: the three
fixed schemes produce 2, 3 and 4 colors. -/
theorem C1_fixed_offset_schemes_witness :
    ColorRGB.from_hex [35, 51, 52, 57, 56, 68, 66] = .ok ⟨52, 152, 219⟩ ∧
    (generar_complementario [35, 51, 52, 57, 56, 68, 66]).map List.length = .ok 2 ∧
    (generar_triadico [35, 51, 52, 57, 56, 68, 66]).map List.length = .ok 3 ∧
    (generar_tetradico [35, 51, 52, 57, 56, 68, 66]).map List.length = .ok 4 := by
  have h : ColorRGB.from_hex [35, 51, 52, 57, 56, 68, 66] = .ok ⟨52, 152, 219⟩ := by decide
  refine ⟨h, ?_, ?_, ?_⟩
  · rw [(C1_fixed_offset_schemes [35, 51, 52, 57, 56, 68, 66] ⟨52, 152, 219⟩ h).1]
    rfl
  · rw [(C1_fixed_offset_schemes [35, 51, 52, 57, 56, 68, 66] ⟨52, 152, 219⟩ h).2.2.1]
    rfl
  · rw [(C1_fixed_offset_schemes [35, 51, 52, 57, 56, 68, 66] ⟨52, 152, 219⟩ h).2.2.2.2.1]
    rfl

lemma pyRange_length (a b : ℤ) : (pyRange a b).length = (b - a).toNat := by
  unfold pyRange
  rw [List.length_map, List.length_range]

lemma pyRange_getElem (a b : ℤ) (k : ℕ) (hk : k < (pyRange a b).length) :
    (pyRange a b)[k] = a + (k : ℤ) := by
  unfold pyRange at hk ⊢
  rw [List.getElem_map, List.getElem_range]

lemma ceil_int_half (i : ℤ) : ⌈(i : ℚ) / 2⌉ = (i + 1) / 2 := by
  rw [Int.ceil_eq_iff]
  constructor
  · rw [lt_div_iff₀ (by norm_num : (0:ℚ) < 2)]
    exact_mod_cast (by omega : (((i + 1) / 2 : ℤ) - 1) * 2 < i)
  · rw [div_le_iff₀ (by norm_num : (0:ℚ) < 2)]
    exact_mod_cast (by omega : i ≤ (((i + 1) / 2 : ℤ)) * 2)

/-- **C4.**  For every valid base and count, the analogous scheme is
the base followed by the loop colors; the element at position
`i = k + 1` sits at hue offset `±30°·⌈i/2⌉` (`+` for odd `i`, `−` for
even `i`) with unchanged saturation and value; the harmonic scheme is
the base followed by colors at hue `+ i·15°`, saturation
`clamp(s − i·0.1)` into `[0.3, 1]` and value `clamp(v + i·0.05)` into
`[0.4, 1]`. -/
theorem C4_analogo_armonico (s : PyStr) (c : ColorRGB)
    (h : ColorRGB.from_hex s = .ok c) (n : ℤ) :
    generar_analogo s n =
      .ok (s :: (pyRange 1 n).map (analogoColor c.to_hsv.1 c.to_hsv.2.1 c.to_hsv.2.2)) ∧
    generar_armonico s n =
      .ok (s :: (pyRange 1 n).map (armonicoColor c.to_hsv.1 c.to_hsv.2.1 c.to_hsv.2.2)) ∧
    (∀ L, generar_analogo s n = .ok L →
      L.head? = some s ∧ L.length = 1 + (n - 1).toNat ∧
      (∀ k : ℕ, ∀ hk : k + 1 < L.length,
        L.get ⟨k + 1, hk⟩ =
          if ((k : ℤ) + 1) % 2 = 1 then
            (ColorRGB.from_hsv
              (Int.fract (c.to_hsv.1 + (30/360 : ℚ) * ((⌈(((k : ℤ) + 1 : ℤ) : ℚ) / 2⌉ : ℤ) : ℚ)))
              c.to_hsv.2.1 c.to_hsv.2.2).to_hex
          else
            (ColorRGB.from_hsv
              (Int.fract (c.to_hsv.1 - (30/360 : ℚ) * ((⌈(((k : ℤ) + 1 : ℤ) : ℚ) / 2⌉ : ℤ) : ℚ)))
              c.to_hsv.2.1 c.to_hsv.2.2).to_hex)) ∧
    (∀ L, generar_armonico s n = .ok L →
      L.head? = some s ∧ L.length = 1 + (n - 1).toNat ∧
      (∀ k : ℕ, ∀ hk : k + 1 < L.length,
        L.get ⟨k + 1, hk⟩ =
          (ColorRGB.from_hsv
            (Int.fract (c.to_hsv.1 + (((k : ℤ) + 1 : ℤ) : ℚ) * 15 / 360))
            (max 0.3 (min 1 (c.to_hsv.2.1 - (((k : ℤ) + 1 : ℤ) : ℚ) * 0.1)))
            (max 0.4 (min 1 (c.to_hsv.2.2 + (((k : ℤ) + 1 : ℤ) : ℚ) * 0.05)))).to_hex)) := by
  have ea : generar_analogo s n =
      .ok (s :: (pyRange 1 n).map (analogoColor c.to_hsv.1 c.to_hsv.2.1 c.to_hsv.2.2)) := by
    unfold generar_analogo
    rw [h]
  have eh : generar_armonico s n =
      .ok (s :: (pyRange 1 n).map (armonicoColor c.to_hsv.1 c.to_hsv.2.1 c.to_hsv.2.2)) := by
    unfold generar_armonico
    rw [h]
  refine ⟨ea, eh, fun L hL => ?_, fun L hL => ?_⟩
  · rw [ea] at hL
    cases Except.ok.inj hL
    refine ⟨rfl, by rw [List.length_cons, List.length_map, pyRange_length]; omega, ?_⟩
    intro k hk
    rw [List.get_eq_getElem, List.getElem_cons_succ, List.getElem_map, pyRange_getElem]
    have hik : (1 : ℤ) + (k : ℤ) = (k : ℤ) + 1 := by ring
    rw [hik]
    unfold analogoColor
    rw [ceil_int_half]
    split_ifs with hpar
    · rfl
    · rw [show ((k : ℤ) + 1 + 1) / 2 = ((k : ℤ) + 1) / 2 from by omega]
  · rw [eh] at hL
    cases Except.ok.inj hL
    refine ⟨rfl, by rw [List.length_cons, List.length_map, pyRange_length]; omega, ?_⟩
    intro k hk
    rw [List.get_eq_getElem, List.getElem_cons_succ, List.getElem_map, pyRange_getElem]
    have hik : (1 : ℤ) + (k : ℤ) = (k : ℤ) + 1 := by ring
    rw [hik]
    unfold armonicoColor
    norm_num

/-- Witness for `C4_analogo_armonico` at `"#3498DB"` with the default
count 3: both schemes return three colors headed by the base. -/
theorem C4_analogo_armonico_witness :
    ColorRGB.from_hex [35, 51, 52, 57, 56, 68, 66] = .ok ⟨52, 152, 219⟩ ∧
    (generar_analogo [35, 51, 52, 57, 56, 68, 66] 3).map List.length = .ok 3 ∧
    (generar_armonico [35, 51, 52, 57, 56, 68, 66] 3).map List.length = .ok 3 := by
  have h : ColorRGB.from_hex [35, 51, 52, 57, 56, 68, 66] = .ok ⟨52, 152, 219⟩ := by decide
  refine ⟨h, ?_, ?_⟩
  · rw [(C4_analogo_armonico [35, 51, 52, 57, 56, 68, 66] ⟨52, 152, 219⟩ h 3).1]
    rfl
  · rw [(C4_analogo_armonico [35, 51, 52, 57, 56, 68, 66] ⟨52, 152, 219⟩ h 3).2.1]
    rfl

/-- **C8.**  For `count ≤ 1` (zero and negative included) none of the
analogous, monochromatic or harmonic generators divides by zero or
fails on a valid base: the analogous and harmonic loops do not run,
yielding exactly `[base]`; the monochromatic generator falls back to
the base's own lightness at `count = 1` (one color), and returns the
empty list for `count ≤ 0`. -/
theorem C8_small_counts (s : PyStr) (c : ColorRGB)
    (h : ColorRGB.from_hex s = .ok c) (n : ℤ) (hn : n ≤ 1) :
    generar_analogo s n = .ok [s] ∧
    generar_armonico s n = .ok [s] ∧
    generar_monocromatico s 1 =
      .ok [(ColorRGB.from_hls c.to_hls.1 c.to_hls.2.1 c.to_hls.2.2).to_hex] ∧
    (n ≤ 0 → generar_monocromatico s n = .ok []) := by
  have hrange : pyRange 1 n = [] := by
    unfold pyRange
    rw [show (n - 1).toNat = 0 from by omega]
    rfl
  refine ⟨?_, ?_, ?_, fun hn0 => ?_⟩
  · unfold generar_analogo
    rw [h, hrange]
    rfl
  · unfold generar_armonico
    rw [h, hrange]
    rfl
  · unfold generar_monocromatico
    rw [h]
    rw [show pyRange 0 1 = [0] from rfl]
    show Except.ok _ = _
    norm_num
  · unfold generar_monocromatico
    rw [h]
    rw [show pyRange 0 n = [] from by
      unfold pyRange
      rw [show (n - 0).toNat = 0 from by omega]
      rfl]
    rfl

/-- Witness for `C8_small_counts` at `"#3498DB"` with `n = 0`. -/
theorem C8_small_counts_witness :
    generar_analogo [35, 51, 52, 57, 56, 68, 66] 0 = .ok [[35, 51, 52, 57, 56, 68, 66]] ∧
    (generar_monocromatico [35, 51, 52, 57, 56, 68, 66] 1).map List.length = .ok 1 ∧
    generar_monocromatico [35, 51, 52, 57, 56, 68, 66] 0 = .ok [] := by
  have h : ColorRGB.from_hex [35, 51, 52, 57, 56, 68, 66] = .ok ⟨52, 152, 219⟩ := by decide
  have hthm := C8_small_counts [35, 51, 52, 57, 56, 68, 66] ⟨52, 152, 219⟩ h 0 (by norm_num)
  refine ⟨hthm.1, ?_, hthm.2.2.2 (by norm_num)⟩
  rw [(C8_small_counts [35, 51, 52, 57, 56, 68, 66] ⟨52, 152, 219⟩ h 1 (by norm_num)).2.2.1]
  rfl

lemma gammaBound (pw : ℚ → ℚ) (hpw : ∀ x : ℚ, 0 ≤ x → x ≤ 1 → 0 ≤ pw x ∧ pw x ≤ 1)
    (t : ℚ) (h0 : 0 ≤ t) (h1 : t ≤ 1) :
    0 ≤ (if t ≤ 0.03928 then t / 12.92 else pw ((t + 0.055) / 1.055)) ∧
    (if t ≤ 0.03928 then t / 12.92 else pw ((t + 0.055) / 1.055)) ≤ 1 := by
  split_ifs with ht
  · constructor
    · positivity
    · rw [div_le_one (by norm_num : (0:ℚ) < 12.92)]
      linarith
  · refine hpw _ (by positivity) ?_
    rw [div_le_one (by norm_num : (0:ℚ) < 1.055)]
    linarith

lemma luminancia_mem (pw : ℚ → ℚ)
    (hpw : ∀ x : ℚ, 0 ≤ x → x ≤ 1 → 0 ≤ pw x ∧ pw x ≤ 1)
    (c : ColorRGB) (hc : c.inRange) :
    0 ≤ luminancia_relativa pw c ∧ luminancia_relativa pw c ≤ 1 := by
  obtain ⟨h1, h2, h3, h4, h5, h6⟩ := hc
  have c1 : (0:ℚ) ≤ (c.r : ℚ) / 255 := by positivity
  have c2 : ((c.r : ℚ)) / 255 ≤ 1 := by
    rw [div_le_one (by norm_num : (0:ℚ) < 255)]
    exact_mod_cast h2
  have c3 : (0:ℚ) ≤ (c.g : ℚ) / 255 := by positivity
  have c4 : ((c.g : ℚ)) / 255 ≤ 1 := by
    rw [div_le_one (by norm_num : (0:ℚ) < 255)]
    exact_mod_cast h4
  have c5 : (0:ℚ) ≤ (c.b : ℚ) / 255 := by positivity
  have c6 : ((c.b : ℚ)) / 255 ≤ 1 := by
    rw [div_le_one (by norm_num : (0:ℚ) < 255)]
    exact_mod_cast h6
  have hr := gammaBound pw hpw _ c1 c2
  have hg := gammaBound pw hpw _ c3 c4
  have hb := gammaBound pw hpw _ c5 c6
  unfold luminancia_relativa
  constructor
  · have := hr.1
    have := hg.1
    have := hb.1
    nlinarith [hr.1, hg.1, hb.1]
  · nlinarith [hr.2, hg.2, hb.2, hr.1, hg.1, hb.1]

lemma contraste_ok (pw : ℚ → ℚ) (s1 s2 : PyStr) (c1 c2 : ColorRGB)
    (hh1 : ColorRGB.from_hex s1 = .ok c1) (hh2 : ColorRGB.from_hex s2 = .ok c2) :
    calcular_contraste pw s1 s2 =
      if luminancia_relativa pw c1 < luminancia_relativa pw c2
      then .ok ((luminancia_relativa pw c2 + 0.05) / (luminancia_relativa pw c1 + 0.05))
      else .ok ((luminancia_relativa pw c1 + 0.05) / (luminancia_relativa pw c2 + 0.05)) := by
  unfold calcular_contraste
  rw [hh1, hh2]

lemma contraste_err_left (pw : ℚ → ℚ) (s1 s2 : PyStr) (e : ColorError)
    (hh1 : ColorRGB.from_hex s1 = .error e) :
    calcular_contraste pw s1 s2 = .error e := by
  unfold calcular_contraste
  rw [hh1]

lemma contraste_err_right (pw : ℚ → ℚ) (s1 s2 : PyStr) (c1 : ColorRGB) (e : ColorError)
    (hh1 : ColorRGB.from_hex s1 = .ok c1) (hh2 : ColorRGB.from_hex s2 = .error e) :
    calcular_contraste pw s1 s2 = .error e := by
  unfold calcular_contraste
  rw [hh1, hh2]

lemma ratio_bounds (x y : ℚ) (hx0 : 0 ≤ x) (hx1 : x ≤ 1) (hy0 : 0 ≤ y) (hxy : y ≤ x) :
    1 ≤ (x + 0.05) / (y + 0.05) ∧ (x + 0.05) / (y + 0.05) ≤ 21 := by
  have hypos : (0:ℚ) < y + 0.05 := by linarith
  constructor
  · rw [le_div_iff₀ hypos]
    linarith
  · rw [div_le_iff₀ hypos]
    linarith

/-- **C7.**  For any gamma power function `pw` with the properties of
the real `x ↦ x ^ 2.4` on `[0, 1]` (maps `[0, 1]` into `[0, 1]` and
fixes `1`), the contrast ratio is symmetric in its two arguments,
equals exactly `1` on equal inputs, always lies in `[1, 21]`, and is
exactly `21` on black versus white. -/
theorem C7_contraste_props (pw : ℚ → ℚ)
    (hpw : ∀ x : ℚ, 0 ≤ x → x ≤ 1 → 0 ≤ pw x ∧ pw x ≤ 1) (hpw1 : pw 1 = 1) :
    (∀ a b : PyStr, calcular_contraste pw a b = calcular_contraste pw b a) ∧
    (∀ a : PyStr, ∀ c : ColorRGB, ColorRGB.from_hex a = .ok c →
      calcular_contraste pw a a = .ok 1) ∧
    (∀ a b : PyStr, ∀ q : ℚ, calcular_contraste pw a b = .ok q → 1 ≤ q ∧ q ≤ 21) ∧
    calcular_contraste pw strNegro strBlanco = .ok 21 := by
  refine ⟨?_, ?_, ?_, ?_⟩
  · intro a b
    rcases ha : ColorRGB.from_hex a with ea | ca <;> rcases hb : ColorRGB.from_hex b with eb | cb
    · rw [contraste_err_left pw a b ea ha, contraste_err_left pw b a eb hb,
          from_hex_error_eq a ea ha, from_hex_error_eq b eb hb]
    · rw [contraste_err_left pw a b ea ha, contraste_err_right pw b a cb ea hb ha]
    · rw [contraste_err_right pw a b ca eb ha hb, contraste_err_left pw b a eb hb]
    · rw [contraste_ok pw a b ca cb ha hb, contraste_ok pw b a cb ca hb ha]
      rcases lt_trichotomy (luminancia_relativa pw ca) (luminancia_relativa pw cb) with hlt | heq | hgt
      · rw [if_pos hlt, if_neg (lt_asymm hlt)]
      · rw [heq, if_neg (lt_irrefl _)]
      · rw [if_neg (lt_asymm hgt), if_pos hgt]
  · intro a c h
    rw [contraste_ok pw a a c c h h, if_neg (lt_irrefl _)]
    have hpos := (luminancia_mem pw hpw c (from_hex_ok_inRange a c h)).1
    rw [div_self (by linarith : luminancia_relativa pw c + 0.05 ≠ 0)]
  · intro a b q hq
    rcases ha : ColorRGB.from_hex a with ea | ca
    · rw [contraste_err_left pw a b ea ha] at hq
      exact Except.noConfusion hq
    rcases hb : ColorRGB.from_hex b with eb | cb
    · rw [contraste_err_right pw a b ca eb ha hb] at hq
      exact Except.noConfusion hq
    rw [contraste_ok pw a b ca cb ha hb] at hq
    have hA := luminancia_mem pw hpw ca (from_hex_ok_inRange a ca ha)
    have hB := luminancia_mem pw hpw cb (from_hex_ok_inRange b cb hb)
    split_ifs at hq with hlt
    · cases Except.ok.inj hq
      exact ratio_bounds _ _ hB.1 hB.2 hA.1 (le_of_lt hlt)
    · cases Except.ok.inj hq
      exact ratio_bounds _ _ hA.1 hA.2 hB.1 (le_of_not_lt hlt)
  · have hbp : ColorRGB.from_hex strNegro = .ok (mkColorRGB 0 0 0) := by decide
    have hwp : ColorRGB.from_hex strBlanco = .ok (mkColorRGB 255 255 255) := by decide
    have lb : luminancia_relativa pw (mkColorRGB 0 0 0) = 0 := by
      unfold luminancia_relativa mkColorRGB
      norm_num
    have lw : luminancia_relativa pw (mkColorRGB 255 255 255) = 1 := by
      unfold luminancia_relativa mkColorRGB
      norm_num [hpw1]
    rw [contraste_ok pw strNegro strBlanco _ _ hbp hwp, lb, lw,
        if_pos (by norm_num : (0:ℚ) < 1)]
    norm_num

/-- Witness for `C7_contraste_props`, instantiating the gamma power
function with the identity (which maps `[0, 1]` into itself and fixes
`1`): contrast of black against white is exactly `21`. -/
theorem C7_contraste_props_witness :
    calcular_contraste id strNegro strBlanco = .ok 21 :=
  (C7_contraste_props id (fun _ h0 h1 => ⟨h0, h1⟩) rfl).2.2.2

lemma hsv_to_rgb_eval (x s v : ℚ) (hs : s ≠ 0) (k : ℤ) (hk0 : 0 ≤ k) (hk5 : k ≤ 5)
    (h0 : (k : ℚ) ≤ x * 6) (h1 : x * 6 < (k : ℚ) + 1) :
    hsv_to_rgb x s v =
      (if k = 0 then (v, v * (1 - s * (1 - (x * 6 - (k : ℚ)))), v * (1 - s))
       else if k = 1 then (v * (1 - s * (x * 6 - (k : ℚ))), v, v * (1 - s))
       else if k = 2 then (v * (1 - s), v, v * (1 - s * (1 - (x * 6 - (k : ℚ)))))
       else if k = 3 then (v * (1 - s), v * (1 - s * (x * 6 - (k : ℚ))), v)
       else if k = 4 then (v * (1 - s * (1 - (x * 6 - (k : ℚ)))), v * (1 - s), v)
       else (v, v * (1 - s), v * (1 - s * (x * 6 - (k : ℚ))))) := by
  have hkq : (0 : ℚ) ≤ (k : ℚ) := by exact_mod_cast hk0
  have hfl : pyInt (x * 6) = k := by
    unfold pyInt
    rw [if_pos (by linarith : (0:ℚ) ≤ x * 6)]
    rw [Int.floor_eq_iff]
    exact ⟨h0, by push_cast; linarith⟩
  have hmod : k % 6 = k := Int.emod_eq_of_lt hk0 (by omega)
  simp only [hsv_to_rgb]
  rw [if_neg hs, hfl, hmod]

lemma rgb_to_hsv_of_ne (r g b : ℚ) (hne : ¬ min r (min g b) = max r (max g b)) :
    rgb_to_hsv r g b =
      (Int.fract ((if r = max r (max g b) then
            ((max r (max g b) - b) / (max r (max g b) - min r (min g b)) -
             (max r (max g b) - g) / (max r (max g b) - min r (min g b)))
          else if g = max r (max g b) then
            (2 + (max r (max g b) - r) / (max r (max g b) - min r (min g b)) -
             (max r (max g b) - b) / (max r (max g b) - min r (min g b)))
          else
            (4 + (max r (max g b) - g) / (max r (max g b) - min r (min g b)) -
             (max r (max g b) - r) / (max r (max g b) - min r (min g b)))) / 6),
       (max r (max g b) - min r (min g b)) / max r (max g b),
       max r (max g b)) := by
  simp only [rgb_to_hsv]
  rw [if_neg hne]

set_option maxHeartbeats 1000000 in
lemma hsv_roundtrip (r g b : ℚ) (hr : 0 ≤ r) (hg : 0 ≤ g) (hb : 0 ≤ b) :
    hsv_to_rgb (rgb_to_hsv r g b).1 (rgb_to_hsv r g b).2.1 (rgb_to_hsv r g b).2.2 =
      (r, g, b) := by
  by_cases hne : min r (min g b) = max r (max g b)
  · have e1 : r = max r (max g b) :=
      le_antisymm (le_max_left _ _) (hne ▸ min_le_left _ _)
    have e2 : g = max r (max g b) :=
      le_antisymm ((le_max_left g b).trans (le_max_right r (max g b)))
        (hne ▸ ((min_le_right r (min g b)).trans (min_le_left g b)))
    have e3 : b = max r (max g b) :=
      le_antisymm ((le_max_right g b).trans (le_max_right r (max g b)))
        (hne ▸ ((min_le_right r (min g b)).trans (min_le_right g b)))
    rw [show rgb_to_hsv r g b = (0, 0, max r (max g b)) from by
      simp only [rgb_to_hsv]; rw [if_pos hne]]
    simp only [hsv_to_rgb]
    rw [if_pos trivial, Prod.mk.injEq, Prod.mk.injEq]
    exact ⟨e1.symm, e2.symm, e3.symm⟩
  · rw [rgb_to_hsv_of_ne r g b hne]
    set M := max r (max g b) with hMdef
    set m := min r (min g b) with hmdef
    have hrM' : r ≤ M := le_max_left _ _
    have hgM' : g ≤ M := (le_max_left g b).trans (le_max_right r (max g b))
    have hbM' : b ≤ M := (le_max_right g b).trans (le_max_right r (max g b))
    have hmr : m ≤ r := min_le_left _ _
    have hmg : m ≤ g := (min_le_right r (min g b)).trans (min_le_left g b)
    have hmb : m ≤ b := (min_le_right r (min g b)).trans (min_le_right g b)
    have hm0 : 0 ≤ m := le_min hr (le_min hg hb)
    have hmM : m < M := lt_of_le_of_ne (hmr.trans hrM') hne
    have hM0 : 0 < M := lt_of_le_of_lt hm0 hmM
    have hMne : M ≠ 0 := ne_of_gt hM0
    dsimp only
    by_cases hrM : r = M
    · rw [if_pos hrM]
      by_cases hbg : b ≤ g
      · -- min is b
        have hmv : m = b := by
          rw [hmdef]
          rw [min_eq_right hbg, min_eq_right (hrM ▸ hbM' : b ≤ r)]
        rw [hmv]
        have hRb : (0:ℚ) < M - b := by rw [← hmv]; linarith
        have hRbne : M - b ≠ 0 := ne_of_gt hRb
        have hs : (M - b) / M ≠ 0 := div_ne_zero hRbne hMne
        have hH : (M - b) / (M - b) - (M - g) / (M - b) = (g - b) / (M - b) := by
          ring
        rw [hH]
        have hH0 : (0:ℚ) ≤ (g - b) / (M - b) := div_nonneg (by linarith) hRb.le
        have hH1 : (g - b) / (M - b) ≤ 1 := by
          rw [div_le_one hRb]
          linarith
        have hy : Int.fract ((g - b) / (M - b) / 6) = (g - b) / (M - b) / 6 := by
          rw [Int.fract_eq_self]
          constructor
          · positivity
          · rw [div_lt_one (by norm_num : (0:ℚ) < 6)]
            linarith
        rw [hy]
        have hx6 : (g - b) / (M - b) / 6 * 6 = (g - b) / (M - b) := by ring
        by_cases hH1s : (g - b) / (M - b) < 1
        · -- k = 0
          rw [hsv_to_rgb_eval _ _ _ hs 0 (by norm_num) (by norm_num)
              (by rw [hx6]; push_cast; linarith)
              (by rw [hx6]; push_cast; linarith)]
          rw [if_pos rfl, Prod.mk.injEq, Prod.mk.injEq]
          refine ⟨hrM.symm, ?_, ?_⟩
          · rw [hx6]
            push_cast
            field_simp
            ring
          · field_simp
        · -- k = 1, g = M
          have hHeq : (g - b) / (M - b) = 1 := le_antisymm hH1 (not_lt.mp hH1s)
          have hgM2 : g = M := by
            have := (div_eq_one_iff_eq hRbne).mp hHeq
            linarith
          rw [hsv_to_rgb_eval _ _ _ hs 1 (by norm_num) (by norm_num)
              (by rw [hx6, hHeq]; push_cast; linarith)
              (by rw [hx6, hHeq]; push_cast; linarith)]
          rw [if_neg (by norm_num), if_pos rfl, Prod.mk.injEq, Prod.mk.injEq]
          refine ⟨?_, hgM2.symm, ?_⟩
          · rw [hx6, hHeq]
            push_cast
            ring_nf
            exact hrM.symm
          · field_simp
      · -- g < b : min is g, k = 5
        have hgb : g < b := not_le.mp hbg
        have hmv : m = g := by
          rw [hmdef]
          rw [min_eq_left hgb.le, min_eq_right (hrM ▸ hgM' : g ≤ r)]
        rw [hmv]
        have hRg : (0:ℚ) < M - g := by rw [← hmv]; linarith
        have hRgne : M - g ≠ 0 := ne_of_gt hRg
        have hs : (M - g) / M ≠ 0 := div_ne_zero hRgne hMne
        have hH : (M - b) / (M - g) - (M - g) / (M - g) = (g - b) / (M - g) := by
          ring
        rw [hH]
        have hHneg : (g - b) / (M - g) < 0 :=
          div_neg_of_neg_of_pos (by linarith) hRg
        have hHge : (-1:ℚ) ≤ (g - b) / (M - g) := by
          rw [le_div_iff₀ hRg]
          linarith
        have hy : Int.fract ((g - b) / (M - g) / 6) = (g - b) / (M - g) / 6 + 1 := by
          have hXlo : (-1:ℚ)/6 ≤ (g - b) / (M - g) / 6 := by linarith
          have hXhi : (g - b) / (M - g) / 6 < 0 := by linarith
          have h1 : Int.fract ((g - b) / (M - g) / 6 + 1) = (g - b) / (M - g) / 6 + 1 :=
            Int.fract_eq_self.mpr ⟨by linarith, by linarith⟩
          have h2 := Int.fract_add_int ((g - b) / (M - g) / 6) 1
          rw [Int.cast_one] at h2
          exact (h2.symm).trans h1
        rw [hy]
        have hx6 : ((g - b) / (M - g) / 6 + 1) * 6 = (g - b) / (M - g) + 6 := by ring
        rw [hsv_to_rgb_eval _ _ _ hs 5 (by norm_num) (by norm_num)
            (by rw [hx6]; push_cast; linarith)
            (by rw [hx6]; push_cast; linarith)]
        rw [if_neg (by norm_num), if_neg (by norm_num), if_neg (by norm_num),
            if_neg (by norm_num), if_neg (by norm_num), Prod.mk.injEq, Prod.mk.injEq]
        refine ⟨hrM.symm, ?_, ?_⟩
        · field_simp
        · rw [hx6]
          push_cast
          field_simp
          ring
    · rw [if_neg hrM]
      have hrltM : r < M := lt_of_le_of_ne hrM' hrM
      by_cases hgM : g = M
      · rw [if_pos hgM]
        have hbg2 : b ≤ g := by
          rw [hgM]
          exact hbM'
        by_cases hbr : b < r
        · -- the minimum is b; sector 1
          have hmv : m = b := by
            rw [hmdef, min_eq_right hbg2, min_eq_right hbr.le]
          rw [hmv]
          have hRb : (0:ℚ) < M - b := by
            rw [← hmv]
            exact sub_pos.mpr hmM
          have hRbne : M - b ≠ 0 := ne_of_gt hRb
          have hs : (M - b) / M ≠ 0 := div_ne_zero hRbne hMne
          have hH : 2 + (M - r) / (M - b) - (M - b) / (M - b) = 2 + (b - r) / (M - b) := by
            ring
          rw [hH]
          have hX0 : (b - r) / (M - b) < 0 := div_neg_of_neg_of_pos (by linarith) hRb
          have hX1 : (-1:ℚ) < (b - r) / (M - b) := by
            rw [lt_div_iff₀ hRb]
            linarith
          have hy : Int.fract ((2 + (b - r) / (M - b)) / 6) = (2 + (b - r) / (M - b)) / 6 := by
            rw [Int.fract_eq_self]
            constructor
            · exact div_nonneg (by linarith) (by norm_num)
            · rw [div_lt_one (by norm_num : (0:ℚ) < 6)]
              linarith
          rw [hy]
          have hx6 : (2 + (b - r) / (M - b)) / 6 * 6 = 2 + (b - r) / (M - b) := by ring
          rw [hsv_to_rgb_eval _ _ _ hs 1 (by norm_num) (by norm_num)
              (by rw [hx6]; push_cast; linarith)
              (by rw [hx6]; push_cast; linarith)]
          rw [if_neg (by norm_num), if_pos rfl, Prod.mk.injEq, Prod.mk.injEq]
          refine ⟨?_, hgM.symm, ?_⟩
          · rw [hx6]
            push_cast
            field_simp
            ring
          · field_simp
        · -- the minimum is r; sectors 2 and 3
          have hrb : r ≤ b := not_lt.mp hbr
          have hmv : m = r := by
            rw [hmdef, min_eq_right hbg2, min_eq_left hrb]
          rw [hmv]
          have hRr : (0:ℚ) < M - r := sub_pos.mpr hrltM
          have hRrne : M - r ≠ 0 := ne_of_gt hRr
          have hs : (M - r) / M ≠ 0 := div_ne_zero hRrne hMne
          have hH : 2 + (M - r) / (M - r) - (M - b) / (M - r) = 2 + (b - r) / (M - r) := by
            ring
          rw [hH]
          have hX0 : (0:ℚ) ≤ (b - r) / (M - r) := div_nonneg (by linarith) hRr.le
          have hX1 : (b - r) / (M - r) ≤ 1 := by
            rw [div_le_one hRr]
            linarith
          have hy : Int.fract ((2 + (b - r) / (M - r)) / 6) = (2 + (b - r) / (M - r)) / 6 := by
            rw [Int.fract_eq_self]
            constructor
            · positivity
            · rw [div_lt_one (by norm_num : (0:ℚ) < 6)]
              linarith
          rw [hy]
          have hx6 : (2 + (b - r) / (M - r)) / 6 * 6 = 2 + (b - r) / (M - r) := by ring
          by_cases hbM2 : b < M
          · -- sector 2
            have hX1s : (b - r) / (M - r) < 1 := by
              rw [div_lt_one hRr]
              linarith
            rw [hsv_to_rgb_eval _ _ _ hs 2 (by norm_num) (by norm_num)
                (by rw [hx6]; push_cast; linarith)
                (by rw [hx6]; push_cast; linarith)]
            rw [if_neg (by norm_num), if_neg (by norm_num), if_pos rfl,
                Prod.mk.injEq, Prod.mk.injEq]
            refine ⟨?_, hgM.symm, ?_⟩
            · field_simp
            · rw [hx6]
              push_cast
              field_simp
              ring
          · -- sector 3 with f = 0
            have hbM3 : b = M := le_antisymm hbM' (not_lt.mp hbM2)
            have hXeq : (b - r) / (M - r) = 1 := by
              rw [div_eq_one_iff_eq hRrne]
              linarith
            rw [hsv_to_rgb_eval _ _ _ hs 3 (by norm_num) (by norm_num)
                (by rw [hx6, hXeq]; push_cast; linarith)
                (by rw [hx6, hXeq]; push_cast; linarith)]
            rw [if_neg (by norm_num), if_neg (by norm_num), if_neg (by norm_num),
                if_pos rfl, Prod.mk.injEq, Prod.mk.injEq]
            refine ⟨by field_simp, ?_, hbM3.symm⟩
            rw [hx6, hXeq]
            push_cast
            ring_nf
            exact hgM.symm
      · -- the maximum is b
        rw [if_neg hgM]
        have hgltM : g < M := lt_of_le_of_ne hgM' hgM
        have hbMv : b = M := by
          have hor : M = r ∨ M = g ∨ M = b := by
            rw [hMdef]
            rcases max_choice r (max g b) with h1 | h1
            · exact Or.inl h1
            · rcases max_choice g b with h2 | h2
              · exact Or.inr (Or.inl (h1.trans h2))
              · exact Or.inr (Or.inr (h1.trans h2))
          rcases hor with h1 | h1 | h1
          · exact absurd h1.symm hrM
          · exact absurd h1.symm hgM
          · exact h1.symm
        have hgb2 : g ≤ b := by
          rw [hbMv]
          exact hgM'
        by_cases hrg : r < g
        · -- the minimum is r; sector 3
          have hmv : m = r := by
            rw [hmdef, min_eq_left hgb2, min_eq_left hrg.le]
          rw [hmv]
          have hRr : (0:ℚ) < M - r := sub_pos.mpr hrltM
          have hRrne : M - r ≠ 0 := ne_of_gt hRr
          have hs : (M - r) / M ≠ 0 := div_ne_zero hRrne hMne
          have hH : 4 + (M - g) / (M - r) - (M - r) / (M - r) = 4 + (r - g) / (M - r) := by
            ring
          rw [hH]
          have hX0 : (r - g) / (M - r) < 0 := div_neg_of_neg_of_pos (by linarith) hRr
          have hX1 : (-1:ℚ) < (r - g) / (M - r) := by
            rw [lt_div_iff₀ hRr]
            linarith
          have hy : Int.fract ((4 + (r - g) / (M - r)) / 6) = (4 + (r - g) / (M - r)) / 6 := by
            rw [Int.fract_eq_self]
            constructor
            · exact div_nonneg (by linarith) (by norm_num)
            · rw [div_lt_one (by norm_num : (0:ℚ) < 6)]
              linarith
          rw [hy]
          have hx6 : (4 + (r - g) / (M - r)) / 6 * 6 = 4 + (r - g) / (M - r) := by ring
          rw [hsv_to_rgb_eval _ _ _ hs 3 (by norm_num) (by norm_num)
              (by rw [hx6]; push_cast; linarith)
              (by rw [hx6]; push_cast; linarith)]
          rw [if_neg (by norm_num), if_neg (by norm_num), if_neg (by norm_num),
              if_pos rfl, Prod.mk.injEq, Prod.mk.injEq]
          refine ⟨by field_simp, ?_, hbMv.symm⟩
          rw [hx6]
          push_cast
          field_simp
          ring
        · -- the minimum is g; sector 4
          have hgr : g ≤ r := not_lt.mp hrg
          have hmv : m = g := by
            rw [hmdef, min_eq_left hgb2, min_eq_right hgr]
          rw [hmv]
          have hRg : (0:ℚ) < M - g := sub_pos.mpr hgltM
          have hRgne : M - g ≠ 0 := ne_of_gt hRg
          have hs : (M - g) / M ≠ 0 := div_ne_zero hRgne hMne
          have hH : 4 + (M - g) / (M - g) - (M - r) / (M - g) = 4 + (r - g) / (M - g) := by
            ring
          rw [hH]
          have hX0 : (0:ℚ) ≤ (r - g) / (M - g) := div_nonneg (by linarith) hRg.le
          have hX1 : (r - g) / (M - g) < 1 := by
            rw [div_lt_one hRg]
            linarith
          have hy : Int.fract ((4 + (r - g) / (M - g)) / 6) = (4 + (r - g) / (M - g)) / 6 := by
            rw [Int.fract_eq_self]
            constructor
            · positivity
            · rw [div_lt_one (by norm_num : (0:ℚ) < 6)]
              linarith
          rw [hy]
          have hx6 : (4 + (r - g) / (M - g)) / 6 * 6 = 4 + (r - g) / (M - g) := by ring
          rw [hsv_to_rgb_eval _ _ _ hs 4 (by norm_num) (by norm_num)
              (by rw [hx6]; push_cast; linarith)
              (by rw [hx6]; push_cast; linarith)]
          rw [if_neg (by norm_num), if_neg (by norm_num), if_neg (by norm_num),
              if_neg (by norm_num), if_pos rfl, Prod.mk.injEq, Prod.mk.injEq]
          refine ⟨?_, by field_simp, hbMv.symm⟩
          rw [hx6]
          push_cast
          field_simp
          ring

/-- **C10.**  Converting any RGB triple with integer channels in
`[0, 255]` to HSV and back (normalizing to `[0, 1]`, denormalizing by
`int(x * 255)`) returns each channel within `±1` of the original; in
the exact rational semantics the round trip is in fact the identity
(CPython binary64 rounding can consume the one unit the truncation
tolerance allows). -/
theorem C10_rgb_hsv_roundtrip (R G B : ℤ) (hR0 : 0 ≤ R) (hR1 : R ≤ 255)
    (hG0 : 0 ≤ G) (hG1 : G ≤ 255) (hB0 : 0 ≤ B) (hB1 : B ≤ 255) :
    ColorRGB.from_hsv (mkColorRGB R G B).to_hsv.1 (mkColorRGB R G B).to_hsv.2.1
        (mkColorRGB R G B).to_hsv.2.2 = mkColorRGB R G B ∧
    |(ColorRGB.from_hsv (mkColorRGB R G B).to_hsv.1 (mkColorRGB R G B).to_hsv.2.1
        (mkColorRGB R G B).to_hsv.2.2).r - (mkColorRGB R G B).r| ≤ 1 ∧
    |(ColorRGB.from_hsv (mkColorRGB R G B).to_hsv.1 (mkColorRGB R G B).to_hsv.2.1
        (mkColorRGB R G B).to_hsv.2.2).g - (mkColorRGB R G B).g| ≤ 1 ∧
    |(ColorRGB.from_hsv (mkColorRGB R G B).to_hsv.1 (mkColorRGB R G B).to_hsv.2.1
        (mkColorRGB R G B).to_hsv.2.2).b - (mkColorRGB R G B).b| ≤ 1 := by
  have hmk : mkColorRGB R G B = ⟨R, G, B⟩ :=
    mkColorRGB_eq_self R G B hR0 hR1 hG0 hG1 hB0 hB1
  have hrt := hsv_roundtrip ((R:ℚ)/255) ((G:ℚ)/255) ((B:ℚ)/255)
    (by positivity) (by positivity) (by positivity)
  have hpy : ∀ z : ℤ, pyInt ((z : ℤ) : ℚ) = z := by
    intro z
    unfold pyInt
    split_ifs
    · exact Int.floor_intCast z
    · exact Int.ceil_intCast z
  have heq : ColorRGB.from_hsv (mkColorRGB R G B).to_hsv.1 (mkColorRGB R G B).to_hsv.2.1
      (mkColorRGB R G B).to_hsv.2.2 = mkColorRGB R G B := by
    rw [hmk]
    simp only [ColorRGB.to_hsv, ColorRGB.from_hsv]
    rw [hrt]
    simp only []
    rw [div_mul_cancel₀ _ (by norm_num : (255:ℚ) ≠ 0),
        div_mul_cancel₀ _ (by norm_num : (255:ℚ) ≠ 0),
        div_mul_cancel₀ _ (by norm_num : (255:ℚ) ≠ 0),
        hpy R, hpy G, hpy B, hmk]
  refine ⟨heq, ?_, ?_, ?_⟩ <;> rw [heq] <;> norm_num

/-- Witness for `C10_rgb_hsv_roundtrip` at the triple `(52, 152, 219)`
(`#3498DB`). -/
theorem C10_rgb_hsv_roundtrip_witness :
    ColorRGB.from_hsv (mkColorRGB 52 152 219).to_hsv.1 (mkColorRGB 52 152 219).to_hsv.2.1
        (mkColorRGB 52 152 219).to_hsv.2.2 = mkColorRGB 52 152 219 :=
  (C10_rgb_hsv_roundtrip 52 152 219 (by norm_num) (by norm_num) (by norm_num)
    (by norm_num) (by norm_num) (by norm_num)).1

lemma hls_v_eq (m1 m2 x : ℚ) :
    hls_v m1 m2 x =
      if Int.fract x < 1/6 then m1 + (m2 - m1) * Int.fract x * 6
      else if Int.fract x < 1/2 then m2
      else if Int.fract x < 2/3 then m1 + (m2 - m1) * (2/3 - Int.fract x) * 6
      else m1 := rfl

lemma hls_v_mem (m1 m2 x : ℚ) (hm : m1 ≤ m2) :
    m1 ≤ hls_v m1 m2 x ∧ hls_v m1 m2 x ≤ m2 := by
  rw [hls_v_eq]
  have hf0 : 0 ≤ Int.fract x := Int.fract_nonneg x
  have hf1 : Int.fract x < 1 := Int.fract_lt_one x
  split_ifs with h1 h2 h3
  · constructor
    · nlinarith
    · nlinarith
  · exact ⟨hm, le_refl m2⟩
  · constructor
    · nlinarith
    · nlinarith
  · exact ⟨le_refl m1, hm⟩

lemma hls_v_plateau_hi (m1 m2 x : ℚ) (h1 : 1/6 ≤ Int.fract x) (h2 : Int.fract x < 1/2) :
    hls_v m1 m2 x = m2 := by
  rw [hls_v_eq, if_neg (by linarith), if_pos h2]

lemma hls_v_plateau_lo (m1 m2 x : ℚ) (h1 : 2/3 ≤ Int.fract x) :
    hls_v m1 m2 x = m1 := by
  rw [hls_v_eq, if_neg (by linarith), if_neg (by linarith), if_neg (by linarith)]

lemma fract_shift (h x : ℚ) : Int.fract (h + x) = Int.fract (Int.fract h + x) := by
  conv_lhs => rw [← Int.floor_add_fract h]
  rw [add_assoc]
  exact Int.fract_int_add ⌊h⌋ _

lemma fract_third_up (h : ℚ) :
    Int.fract (h + 1/3) =
      if Int.fract h < 2/3 then Int.fract h + 1/3 else Int.fract h - 2/3 := by
  have hf0 : 0 ≤ Int.fract h := Int.fract_nonneg h
  have hf1 : Int.fract h < 1 := Int.fract_lt_one h
  rw [fract_shift]
  split_ifs with hc
  · exact Int.fract_eq_self.mpr ⟨by linarith, by linarith⟩
  · rw [show Int.fract h + 1/3 = (Int.fract h - 2/3) + ((1 : ℤ) : ℚ) from by push_cast; ring,
        Int.fract_add_int]
    exact Int.fract_eq_self.mpr ⟨by linarith, by linarith⟩

lemma fract_third_down (h : ℚ) :
    Int.fract (h - 1/3) =
      if Int.fract h < 1/3 then Int.fract h + 2/3 else Int.fract h - 1/3 := by
  have hf0 : 0 ≤ Int.fract h := Int.fract_nonneg h
  have hf1 : Int.fract h < 1 := Int.fract_lt_one h
  rw [show h - 1/3 = h + (-1/3 : ℚ) from by ring, fract_shift]
  split_ifs with hc
  · rw [show Int.fract h + (-1/3 : ℚ) = (Int.fract h + 2/3) + ((-1 : ℤ) : ℚ) from by
      push_cast; ring, Int.fract_add_int]
    exact Int.fract_eq_self.mpr ⟨by linarith, by linarith⟩
  · rw [show Int.fract h + (-1/3 : ℚ) = Int.fract h - 1/3 from by ring]
    exact Int.fract_eq_self.mpr ⟨by linarith, by linarith⟩

lemma max_min_three {A B C m1 m2 : ℚ} (bA : m1 ≤ A ∧ A ≤ m2) (bB : m1 ≤ B ∧ B ≤ m2)
    (bC : m1 ≤ C ∧ C ≤ m2) (hHi : A = m2 ∨ B = m2 ∨ C = m2)
    (hLo : A = m1 ∨ B = m1 ∨ C = m1) :
    max A (max B C) = m2 ∧ min A (min B C) = m1 := by
  constructor
  · apply le_antisymm (max_le bA.2 (max_le bB.2 bC.2))
    rcases hHi with e | e | e
    · exact e.symm.trans_le (le_max_left _ _)
    · exact e.symm.trans_le ((le_max_left B C).trans (le_max_right A _))
    · exact e.symm.trans_le ((le_max_right B C).trans (le_max_right A _))
  · apply le_antisymm _ (le_min bA.1 (le_min bB.1 bC.1))
    rcases hLo with e | e | e
    · exact (min_le_left A _).trans_eq e
    · exact ((min_le_right A _).trans (min_le_left B C)).trans_eq e
    · exact ((min_le_right A _).trans (min_le_right B C)).trans_eq e

lemma hls_three_max_min (m1 m2 h : ℚ) (hm : m1 ≤ m2) :
    max (hls_v m1 m2 (h + 1/3)) (max (hls_v m1 m2 h) (hls_v m1 m2 (h - 1/3))) = m2 ∧
    min (hls_v m1 m2 (h + 1/3)) (min (hls_v m1 m2 h) (hls_v m1 m2 (h - 1/3))) = m1 := by
  have bA := hls_v_mem m1 m2 (h + 1/3) hm
  have bB := hls_v_mem m1 m2 h hm
  have bC := hls_v_mem m1 m2 (h - 1/3) hm
  have hf0 : 0 ≤ Int.fract h := Int.fract_nonneg h
  have hf1 : Int.fract h < 1 := Int.fract_lt_one h
  have hA := fract_third_up h
  have hC := fract_third_down h
  rcases lt_or_le (Int.fract h) (1/6) with r1 | r1
  · exact max_min_three bA bB bC
      (Or.inl (hls_v_plateau_hi _ _ _ (by rw [hA, if_pos (by linarith)]; linarith)
        (by rw [hA, if_pos (by linarith)]; linarith)))
      (Or.inr (Or.inr (hls_v_plateau_lo _ _ _
        (by rw [hC, if_pos (by linarith)]; linarith))))
  rcases lt_or_le (Int.fract h) (1/3) with r2 | r2
  · exact max_min_three bA bB bC
      (Or.inr (Or.inl (hls_v_plateau_hi _ _ _ r1 (by linarith))))
      (Or.inr (Or.inr (hls_v_plateau_lo _ _ _
        (by rw [hC, if_pos (by linarith)]; linarith))))
  rcases lt_or_le (Int.fract h) (1/2) with r3 | r3
  · exact max_min_three bA bB bC
      (Or.inr (Or.inl (hls_v_plateau_hi _ _ _ (by linarith) r3)))
      (Or.inl (hls_v_plateau_lo _ _ _ (by rw [hA, if_pos (by linarith)]; linarith)))
  rcases lt_or_le (Int.fract h) (2/3) with r4 | r4
  · exact max_min_three bA bB bC
      (Or.inr (Or.inr (hls_v_plateau_hi _ _ _
        (by rw [hC, if_neg (by linarith)]; linarith)
        (by rw [hC, if_neg (by linarith)]; linarith))))
      (Or.inl (hls_v_plateau_lo _ _ _ (by rw [hA, if_pos (by linarith)]; linarith)))
  rcases lt_or_le (Int.fract h) (5/6) with r5 | r5
  · exact max_min_three bA bB bC
      (Or.inr (Or.inr (hls_v_plateau_hi _ _ _
        (by rw [hC, if_neg (by linarith)]; linarith)
        (by rw [hC, if_neg (by linarith)]; linarith))))
      (Or.inr (Or.inl (hls_v_plateau_lo _ _ _ (by linarith))))
  · exact max_min_three bA bB bC
      (Or.inl (hls_v_plateau_hi _ _ _
        (by rw [hA, if_neg (by linarith)]; linarith)
        (by rw [hA, if_neg (by linarith)]; linarith)))
      (Or.inr (Or.inl (hls_v_plateau_lo _ _ _ (by linarith))))

lemma to_hls_l (c : ColorRGB) :
    (c.to_hls).2.1 =
      (max ((c.r:ℚ)/255) (max ((c.g:ℚ)/255) ((c.b:ℚ)/255)) +
       min ((c.r:ℚ)/255) (min ((c.g:ℚ)/255) ((c.b:ℚ)/255))) / 2 := by
  simp only [ColorRGB.to_hls, rgb_to_hls]
  split_ifs <;> rfl

lemma decoded_l_core (hh m1 m2 : ℚ) (h12 : m1 ≤ m2) (h10 : 0 ≤ m1) (h21 : m2 ≤ 1) :
    (m1 + m2) / 2 - 1/255 <
      ((mkColorRGB (pyInt (hls_v m1 m2 (hh + 1/3) * 255)) (pyInt (hls_v m1 m2 hh * 255))
        (pyInt (hls_v m1 m2 (hh - 1/3) * 255))).to_hls).2.1 ∧
    ((mkColorRGB (pyInt (hls_v m1 m2 (hh + 1/3) * 255)) (pyInt (hls_v m1 m2 hh * 255))
        (pyInt (hls_v m1 m2 (hh - 1/3) * 255))).to_hls).2.1 ≤ (m1 + m2) / 2 := by
  have bA := hls_v_mem m1 m2 (hh + 1/3) h12
  have bB := hls_v_mem m1 m2 hh h12
  have bC := hls_v_mem m1 m2 (hh - 1/3) h12
  have hA0 : 0 ≤ hls_v m1 m2 (hh + 1/3) := le_trans h10 bA.1
  have hB0 : 0 ≤ hls_v m1 m2 hh := le_trans h10 bB.1
  have hC0 : 0 ≤ hls_v m1 m2 (hh - 1/3) := le_trans h10 bC.1
  have hA1 : hls_v m1 m2 (hh + 1/3) ≤ 1 := le_trans bA.2 h21
  have hB1 : hls_v m1 m2 hh ≤ 1 := le_trans bB.2 h21
  have hC1 : hls_v m1 m2 (hh - 1/3) ≤ 1 := le_trans bC.2 h21
  have hp : ∀ X : ℚ, 0 ≤ X → pyInt (X * 255) = ⌊X * 255⌋ := by
    intro X hX
    unfold pyInt
    rw [if_pos (by positivity)]
  have hfb : ∀ X : ℚ, 0 ≤ X → X ≤ 1 → 0 ≤ ⌊X * 255⌋ ∧ ⌊X * 255⌋ ≤ 255 := by
    intro X h0 h1
    constructor
    · exact Int.floor_nonneg.mpr (by positivity)
    · have h2 : X * 255 ≤ (255:ℚ) := by nlinarith
      have h3 := Int.floor_le_floor h2
      rw [show ⌊(255:ℚ)⌋ = 255 from by norm_num] at h3
      exact h3
  rw [hp _ hA0, hp _ hB0, hp _ hC0,
      mkColorRGB_eq_self _ _ _ (hfb _ hA0 hA1).1 (hfb _ hA0 hA1).2 (hfb _ hB0 hB1).1
        (hfb _ hB0 hB1).2 (hfb _ hC0 hC1).1 (hfb _ hC0 hC1).2,
      to_hls_l]
  dsimp only
  rw [max_div_div_right (by norm_num : (0:ℚ) ≤ 255), max_div_div_right (by norm_num : (0:ℚ) ≤ 255),
      min_div_div_right (by norm_num : (0:ℚ) ≤ 255), min_div_div_right (by norm_num : (0:ℚ) ≤ 255)]
  have hmono : Monotone (fun X : ℚ => ⌊X * 255⌋) := fun a b hab => Int.floor_mono (by nlinarith)
  have hcastmax : ∀ x y : ℤ, max ((x:ℚ)) ((y:ℚ)) = ((max x y : ℤ) : ℚ) := by
    intro x y
    exact_mod_cast rfl
  have hcastmin : ∀ x y : ℤ, min ((x:ℚ)) ((y:ℚ)) = ((min x y : ℤ) : ℚ) := by
    intro x y
    exact_mod_cast rfl
  rw [hcastmax, hcastmax, hcastmin, hcastmin]
  have hmax2 : max ⌊hls_v m1 m2 (hh + 1/3) * 255⌋
      (max ⌊hls_v m1 m2 hh * 255⌋ ⌊hls_v m1 m2 (hh - 1/3) * 255⌋) = ⌊m2 * 255⌋ := by
    rw [← Monotone.map_max hmono, ← Monotone.map_max hmono,
        (hls_three_max_min m1 m2 hh h12).1]
  have hmin2 : min ⌊hls_v m1 m2 (hh + 1/3) * 255⌋
      (min ⌊hls_v m1 m2 hh * 255⌋ ⌊hls_v m1 m2 (hh - 1/3) * 255⌋) = ⌊m1 * 255⌋ := by
    rw [← Monotone.map_min hmono, ← Monotone.map_min hmono,
        (hls_three_max_min m1 m2 hh h12).2]
  rw [hmax2, hmin2]
  have e2a : ((⌊m2 * 255⌋ : ℤ) : ℚ) ≤ m2 * 255 := Int.floor_le _
  have e2b : m2 * 255 < ((⌊m2 * 255⌋ : ℤ) : ℚ) + 1 := Int.lt_floor_add_one _
  have e1a : ((⌊m1 * 255⌋ : ℤ) : ℚ) ≤ m1 * 255 := Int.floor_le _
  have e1b : m1 * 255 < ((⌊m1 * 255⌋ : ℤ) : ℚ) + 1 := Int.lt_floor_add_one _
  constructor
  · linarith
  · linarith

lemma from_hls_decoded_l (h l s : ℚ) (hl0 : 0 ≤ l) (hl1 : l ≤ 1) (hs0 : 0 ≤ s)
    (hs1 : s ≤ 1) :
    l - 1/255 < ((ColorRGB.from_hls h l s).to_hls).2.1 ∧
    ((ColorRGB.from_hls h l s).to_hls).2.1 ≤ l := by
  by_cases hs : s = 0
  · subst hs
    have hrgb : hls_to_rgb h l 0 = (l, l, l) := by
      simp only [hls_to_rgb]
      rw [if_pos trivial]
    have hK0 : (0:ℤ) ≤ ⌊l * 255⌋ := Int.floor_nonneg.mpr (by positivity)
    have hK1 : ⌊l * 255⌋ ≤ 255 := by
      have h2 : l * 255 ≤ (255:ℚ) := by nlinarith
      have h3 := Int.floor_le_floor h2
      rw [show ⌊(255:ℚ)⌋ = 255 from by norm_num] at h3
      exact h3
    have hfr : ColorRGB.from_hls h l 0 = ⟨⌊l * 255⌋, ⌊l * 255⌋, ⌊l * 255⌋⟩ := by
      simp only [ColorRGB.from_hls]
      rw [hrgb]
      dsimp only
      rw [show pyInt (l * 255) = ⌊l * 255⌋ from by
        unfold pyInt; rw [if_pos (by positivity)]]
      exact mkColorRGB_eq_self _ _ _ hK0 hK1 hK0 hK1 hK0 hK1
    rw [hfr, to_hls_l]
    dsimp only
    rw [max_self, max_self, min_self, min_self]
    have e1 : ((⌊l * 255⌋ : ℤ) : ℚ) ≤ l * 255 := Int.floor_le _
    have e2 : l * 255 < ((⌊l * 255⌋ : ℤ) : ℚ) + 1 := Int.lt_floor_add_one _
    constructor
    · linarith
    · linarith
  · have hfr : ColorRGB.from_hls h l s =
        mkColorRGB
          (pyInt (hls_v (2 * l - (if l ≤ 1/2 then l * (1 + s) else l + s - l * s))
            (if l ≤ 1/2 then l * (1 + s) else l + s - l * s) (h + 1/3) * 255))
          (pyInt (hls_v (2 * l - (if l ≤ 1/2 then l * (1 + s) else l + s - l * s))
            (if l ≤ 1/2 then l * (1 + s) else l + s - l * s) h * 255))
          (pyInt (hls_v (2 * l - (if l ≤ 1/2 then l * (1 + s) else l + s - l * s))
            (if l ≤ 1/2 then l * (1 + s) else l + s - l * s) (h - 1/3) * 255)) := by
      simp only [ColorRGB.from_hls, hls_to_rgb]
      rw [if_neg hs]
    set m2v := if l ≤ 1/2 then l * (1 + s) else l + s - l * s with hm2def
    have h12 : 2 * l - m2v ≤ m2v := by
      rw [hm2def]
      split_ifs with hc
      · nlinarith
      · nlinarith
    have h10 : 0 ≤ 2 * l - m2v := by
      rw [hm2def]
      split_ifs with hc
      · nlinarith
      · nlinarith
    have h21 : m2v ≤ 1 := by
      rw [hm2def]
      split_ifs with hc
      · nlinarith
      · nlinarith
    have hcore := decoded_l_core h (2 * l - m2v) m2v h12 h10 h21
    rw [hfr]
    constructor
    · have := hcore.1
      linarith
    · have := hcore.2
      linarith

lemma to_hls_s (c : ColorRGB) :
    (c.to_hls).2.2 =
      if min ((c.r:ℚ)/255) (min ((c.g:ℚ)/255) ((c.b:ℚ)/255)) =
         max ((c.r:ℚ)/255) (max ((c.g:ℚ)/255) ((c.b:ℚ)/255)) then 0
      else if (max ((c.r:ℚ)/255) (max ((c.g:ℚ)/255) ((c.b:ℚ)/255)) +
               min ((c.r:ℚ)/255) (min ((c.g:ℚ)/255) ((c.b:ℚ)/255))) / 2 ≤ 1/2 then
        (max ((c.r:ℚ)/255) (max ((c.g:ℚ)/255) ((c.b:ℚ)/255)) -
         min ((c.r:ℚ)/255) (min ((c.g:ℚ)/255) ((c.b:ℚ)/255))) /
        (max ((c.r:ℚ)/255) (max ((c.g:ℚ)/255) ((c.b:ℚ)/255)) +
         min ((c.r:ℚ)/255) (min ((c.g:ℚ)/255) ((c.b:ℚ)/255)))
      else
        (max ((c.r:ℚ)/255) (max ((c.g:ℚ)/255) ((c.b:ℚ)/255)) -
         min ((c.r:ℚ)/255) (min ((c.g:ℚ)/255) ((c.b:ℚ)/255))) /
        (2 - (max ((c.r:ℚ)/255) (max ((c.g:ℚ)/255) ((c.b:ℚ)/255)) +
              min ((c.r:ℚ)/255) (min ((c.g:ℚ)/255) ((c.b:ℚ)/255)))) := by
  simp only [ColorRGB.to_hls, rgb_to_hls]
  split_ifs <;> rfl

lemma to_hls_s_mem (c : ColorRGB) (hc : c.inRange) :
    0 ≤ (c.to_hls).2.2 ∧ (c.to_hls).2.2 ≤ 1 := by
  obtain ⟨h1, h2, h3, h4, h5, h6⟩ := hc
  have q1 : (0:ℚ) ≤ (c.r:ℚ)/255 := by positivity
  have q2 : (c.r:ℚ)/255 ≤ 1 := by
    rw [div_le_one (by norm_num : (0:ℚ) < 255)]
    exact_mod_cast h2
  have q3 : (0:ℚ) ≤ (c.g:ℚ)/255 := by positivity
  have q4 : (c.g:ℚ)/255 ≤ 1 := by
    rw [div_le_one (by norm_num : (0:ℚ) < 255)]
    exact_mod_cast h4
  have q5 : (0:ℚ) ≤ (c.b:ℚ)/255 := by positivity
  have q6 : (c.b:ℚ)/255 ≤ 1 := by
    rw [div_le_one (by norm_num : (0:ℚ) < 255)]
    exact_mod_cast h6
  have hqm : (0:ℚ) ≤ min ((c.r:ℚ)/255) (min ((c.g:ℚ)/255) ((c.b:ℚ)/255)) :=
    le_min q1 (le_min q3 q5)
  have hqM : max ((c.r:ℚ)/255) (max ((c.g:ℚ)/255) ((c.b:ℚ)/255)) ≤ 1 :=
    max_le q2 (max_le q4 q6)
  have hmle : min ((c.r:ℚ)/255) (min ((c.g:ℚ)/255) ((c.b:ℚ)/255)) ≤
      max ((c.r:ℚ)/255) (max ((c.g:ℚ)/255) ((c.b:ℚ)/255)) :=
    (min_le_left _ _).trans (le_max_left _ _)
  rw [to_hls_s]
  split_ifs with hmin hcond
  · exact ⟨le_refl 0, zero_le_one⟩
  · have hmlt : min ((c.r:ℚ)/255) (min ((c.g:ℚ)/255) ((c.b:ℚ)/255)) <
        max ((c.r:ℚ)/255) (max ((c.g:ℚ)/255) ((c.b:ℚ)/255)) :=
      lt_of_le_of_ne hmle hmin
    constructor
    · exact div_nonneg (by linarith) (by linarith)
    · rw [div_le_one (by linarith)]
      linarith
  · have hmlt : min ((c.r:ℚ)/255) (min ((c.g:ℚ)/255) ((c.b:ℚ)/255)) <
        max ((c.r:ℚ)/255) (max ((c.g:ℚ)/255) ((c.b:ℚ)/255)) :=
      lt_of_le_of_ne hmle hmin
    constructor
    · exact div_nonneg (by linarith) (by linarith)
    · rw [div_le_one (by linarith)]
      linarith

lemma from_hls_inRange (h l s : ℚ) : (ColorRGB.from_hls h l s).inRange := by
  unfold ColorRGB.from_hls
  exact mkColorRGB_inRange _ _ _

lemma monocromatico_ok (str : PyStr) (c : ColorRGB) (n : ℤ)
    (hok : ColorRGB.from_hex str = .ok c) :
    generar_monocromatico str n =
      .ok ((pyRange 0 n).map (fun i : ℤ =>
        (ColorRGB.from_hls (c.to_hls).1
          (if 1 < n then 1/5 + (7/10) * (i : ℚ) / ((n : ℚ) - 1) else (c.to_hls).2.1)
          (c.to_hls).2.2).to_hex)) := by
  unfold generar_monocromatico
  rw [hok]

/-- **C3.** For every valid base hex color and count `n > 1`,
`generar_monocromatico` returns exactly `n` colors obtained by converting the
base to HLS once and, for `i = 0 .. n-1`, setting the lightness to
`0.2 + 0.7*i/(n-1)` with the base's hue and saturation unchanged; for count 1
it returns one color at the base's own lightness; for count 4 the four target
lightnesses are `0.2, 13/30, 2/3, 0.9`, every produced hex string decodes
(via `from_hex`) back to exactly the constructed color, and the lightnesses
of the four colors, decoded back to HLS, are strictly increasing (darkest to
lightest).  The first color is built from the base's exact hue and
saturation. -/
theorem C3_monocromatico (str : PyStr) (c : ColorRGB) (n : ℤ)
    (hok : ColorRGB.from_hex str = .ok c) :
    (1 < n →
      generar_monocromatico str n =
        .ok ((pyRange 0 n).map (fun i : ℤ =>
          (ColorRGB.from_hls (c.to_hls).1
            (1/5 + (7/10) * (i : ℚ) / ((n : ℚ) - 1)) (c.to_hls).2.2).to_hex)) ∧
      ∀ colores, generar_monocromatico str n = .ok colores →
        colores.length = n.toNat) ∧
    generar_monocromatico str 1 =
      .ok [(ColorRGB.from_hls (c.to_hls).1 (c.to_hls).2.1 (c.to_hls).2.2).to_hex] ∧
    generar_monocromatico str 4 =
      .ok [(ColorRGB.from_hls (c.to_hls).1 (1/5) (c.to_hls).2.2).to_hex,
           (ColorRGB.from_hls (c.to_hls).1 (13/30) (c.to_hls).2.2).to_hex,
           (ColorRGB.from_hls (c.to_hls).1 (2/3) (c.to_hls).2.2).to_hex,
           (ColorRGB.from_hls (c.to_hls).1 (9/10) (c.to_hls).2.2).to_hex] ∧
    (∀ l : ℚ,
      ColorRGB.from_hex ((ColorRGB.from_hls (c.to_hls).1 l (c.to_hls).2.2).to_hex) =
        .ok (ColorRGB.from_hls (c.to_hls).1 l (c.to_hls).2.2)) ∧
    (((ColorRGB.from_hls (c.to_hls).1 (1/5) (c.to_hls).2.2).to_hls).2.1 <
       ((ColorRGB.from_hls (c.to_hls).1 (13/30) (c.to_hls).2.2).to_hls).2.1 ∧
     ((ColorRGB.from_hls (c.to_hls).1 (13/30) (c.to_hls).2.2).to_hls).2.1 <
       ((ColorRGB.from_hls (c.to_hls).1 (2/3) (c.to_hls).2.2).to_hls).2.1 ∧
     ((ColorRGB.from_hls (c.to_hls).1 (2/3) (c.to_hls).2.2).to_hls).2.1 <
       ((ColorRGB.from_hls (c.to_hls).1 (9/10) (c.to_hls).2.2).to_hls).2.1) := by
  have hs := to_hls_s_mem c (from_hex_ok_inRange str c hok)
  refine ⟨?_, ?_, ?_, ?_, ?_⟩
  · intro hn
    constructor
    · rw [monocromatico_ok str c n hok]
      simp only [if_pos hn]
    · intro colores hcol
      rw [monocromatico_ok str c n hok] at hcol
      rw [← Except.ok.inj hcol, List.length_map, pyRange_length]
      omega
  · rw [monocromatico_ok str c 1 hok]
    have h01 : pyRange 0 1 = [(0 : ℤ)] := rfl
    rw [h01]
    simp only [List.map_cons, List.map_nil]
    rw [if_neg (by norm_num : ¬ (1:ℤ) < 1)]
  · rw [monocromatico_ok str c 4 hok]
    have h04 : pyRange 0 4 = [(0 : ℤ), 1, 2, 3] := rfl
    rw [h04]
    simp only [List.map_cons, List.map_nil]
    rw [if_pos (by norm_num : (1:ℤ) < 4)]
    norm_num
  · intro l
    exact from_hex_to_hex _ (from_hls_inRange _ _ _)
  · have d1 := from_hls_decoded_l (c.to_hls).1 (1/5) (c.to_hls).2.2
      (by norm_num) (by norm_num) hs.1 hs.2
    have d2 := from_hls_decoded_l (c.to_hls).1 (13/30) (c.to_hls).2.2
      (by norm_num) (by norm_num) hs.1 hs.2
    have d3 := from_hls_decoded_l (c.to_hls).1 (2/3) (c.to_hls).2.2
      (by norm_num) (by norm_num) hs.1 hs.2
    have d4 := from_hls_decoded_l (c.to_hls).1 (9/10) (c.to_hls).2.2
      (by norm_num) (by norm_num) hs.1 hs.2
    exact ⟨by linarith [d1.2, d2.1], by linarith [d2.2, d3.1], by linarith [d3.2, d4.1]⟩

/-- **C3, witness.** For the base `"#3498DB"` (which parses to RGB
`(52, 152, 219)`) and count 4, the monochromatic generator succeeds and
returns exactly 4 colors. -/
theorem C3_monocromatico_witness :
    ∃ colores : List PyStr,
      generar_monocromatico ([35, 51, 52, 57, 56, 68, 66] : PyStr) 4 = .ok colores ∧
      colores.length = 4 := by
  have h := C3_monocromatico [35, 51, 52, 57, 56, 68, 66] ⟨52, 152, 219⟩ 4 (by decide)
  obtain ⟨hgen, hlen⟩ := h.1 (by norm_num)
  refine ⟨_, hgen, ?_⟩
  rw [hlen _ hgen]
  decide
